import Mathlib

/-!
Shallow embedding of the gomath repository (matrix/matrix2d.go with the
Shape/Position API, and vector/vector2d.go), together with theorems checking
the specification's claims about it.

Go slices alias their backing arrays, and the matrix code relies on that
(`Slice` returns views; `Set`/`Update` write through them).  We therefore model
the element storage explicitly: a `Store` of backing arrays, and each matrix
row as a `GoSlice` (array id, offset, length, capacity) pointing into the
store.  Go's runtime panics (index out of range, slice bounds out of range,
`make` with negative size) are modelled by the `GoResult.panic` outcome,
distinct from the error values the Go functions return.
-/

namespace GoMath

/-- Outcome of a Go computation: a value, a returned `error`, or a runtime
panic (uncatchable fault). -/
inductive GoResult (α : Type) where
  | ok : α → GoResult α
  | err : String → GoResult α
  | panic : GoResult α
deriving DecidableEq, Repr

/-- The backing arrays of all allocated element buffers, indexed by array id.
Allocation appends a fresh array. -/
abbrev Store (T : Type) := List (List T)

/-- A Go slice header over an element array: array id, start offset, length
and capacity.  Go allows re-slicing up to `cap`, and indexing up to `len`. -/
structure GoSlice where
  arr : Nat
  off : Nat
  len : Nat
  cap : Nat
deriving DecidableEq, Repr

/-- Read a backing array from the store (a dangling id reads as empty;
no reachable state produces one). -/
def storeRead (st : Store T) (a : Nat) : List T := st.getD a []

/-- Replace a backing array in the store. -/
def storeWrite (st : Store T) (a : Nat) (l : List T) : Store T := st.set a l

/-- Go's `s[i]` read on a slice: panics unless `0 ≤ i < len(s)`. -/
def sliceIndex (st : Store T) (s : GoSlice) (i : Int) : GoResult T :=
  if 0 ≤ i ∧ i < (s.len : Int) then
    match (storeRead st s.arr)[s.off + i.toNat]? with
    | some v => .ok v
    | none => .panic
  else .panic

/-- Go's `s[i] = v` write on a slice: panics unless `0 ≤ i < len(s)`. -/
def sliceWrite (st : Store T) (s : GoSlice) (i : Int) (v : T) : GoResult (Store T) :=
  if 0 ≤ i ∧ i < (s.len : Int) then
    .ok (storeWrite st s.arr ((storeRead st s.arr).set (s.off + i.toNat) v))
  else .panic

/-- Go's re-slicing `s[lo:hi]`: panics unless `0 ≤ lo ≤ hi ≤ cap(s)`; the
result shares the backing array. -/
def subSlice (s : GoSlice) (lo hi : Int) : GoResult GoSlice :=
  if 0 ≤ lo ∧ lo ≤ hi ∧ hi ≤ (s.cap : Int) then
    .ok ⟨s.arr, s.off + lo.toNat, (hi - lo).toNat, s.cap - lo.toNat⟩
  else .panic

/-- Go's `l[lo:hi]` on the outer `[][]T` slice of rows.  Every matrix built by
this package has an outer slice with `cap = len` (`New2D` appends exactly
`Height` rows to `make([][]T, 0, Height)`; `Slice` uses `make([][]T, n)`), so
the re-slicing bound is the length. -/
def listSlice (l : List α) (lo hi : Int) : GoResult (List α) :=
  if 0 ≤ lo ∧ lo ≤ hi ∧ hi ≤ (l.length : Int) then
    .ok ((l.drop lo.toNat).take (hi - lo).toNat)
  else .panic

/-- Shape of a matrix: Width/Columns and Height/Rows (Go `int`, so `Int`). -/
structure Shape where
  width : Int
  height : Int
deriving DecidableEq, Repr

/-- A coordinate in the matrix as row and column. -/
structure Position where
  row : Int
  column : Int
deriving DecidableEq, Repr

/-- vector.Vector2D: a 2-element structure of numeric coordinates. -/
structure Vector2D (T : Type) where
  x : T
  y : T
deriving DecidableEq, Repr

/-- `Cross` from vector/vector2d.go: `v.X*w.Y + v.Y*w.X`. -/
def Vector2D.Cross [Add T] [Mul T] (v w : Vector2D T) : T :=
  v.x * w.y + v.y * w.x

/-- Matrix2D: the row slices (views into the store) and the declared shape. -/
structure Matrix2D (T : Type) where
  values : List GoSlice
  shape : Shape
deriving DecidableEq, Repr

/-- `isPositionOutOfBounds` from matrix2d.go. -/
def isPositionOutOfBounds (m : Matrix2D T) (p : Position) : Bool :=
  decide (p.row ≥ m.shape.height) || decide (p.column ≥ m.shape.width) ||
    decide (p.row < 0) || decide (p.column < 0)

/-- `Set` from matrix2d.go: bounds check against the shape, then
`m.Values[position.Row][position.Column] = value` (each Go indexing step can
panic if the shape misstates the storage). -/
def Matrix2D.Set (st : Store T) (m : Matrix2D T) (p : Position) (v : T) :
    GoResult (Store T) :=
  if isPositionOutOfBounds m p then .err "out of bound position" else
  match m.values[p.row.toNat]? with
  | some row => sliceWrite st row p.column v
  | none => .panic

/-- `At` from matrix2d.go: bounds check against the shape, then
`m.Values[position.Row][position.Column]`.  Its type returns no store: `At`
never writes. -/
def Matrix2D.At (st : Store T) (m : Matrix2D T) (p : Position) : GoResult T :=
  if isPositionOutOfBounds m p then .err "out of bound position" else
  match m.values[p.row.toNat]? with
  | some row => sliceIndex st row p.column
  | none => .panic

/-- `vrows[row] = rows[row][x.X : x.Y+1]` applied to every retained row. -/
def mapSubSlice (rows : List GoSlice) (lo hi : Int) : GoResult (List GoSlice) :=
  match rows with
  | [] => .ok []
  | r :: rest =>
    match subSlice r lo hi with
    | .ok r2 =>
      match mapSubSlice rest lo hi with
      | .ok rest2 => .ok (r2 :: rest2)
      | .err e => .err e
      | .panic => .panic
    | .err e => .err e
    | .panic => .panic

/-- `Slice` from matrix2d.go.  As in the source, the computed shape is
`Shape{Width: (x.Y + 1 - x.X), Height: (x.Y + 1 - x.X)}` — both components
come from the `x` (column) range — and the bounds test checks that computed
shape against the matrix shape; the row range `y` is used only to re-slice
the rows. -/
def Matrix2D.Slice (m : Matrix2D T) (x y : Vector2D Int) :
    GoResult (Matrix2D T) :=
  let shape : Shape := { width := x.y + 1 - x.x, height := x.y + 1 - x.x }
  if shape.width < 0 ∨ shape.height < 0 ∨ shape.width > m.shape.width ∨
      shape.height > m.shape.height then
    .err "slice out of bounds on matrix"
  else
    match listSlice m.values y.x (y.y + 1) with
    | .ok rows =>
      match mapSubSlice rows x.x (x.y + 1) with
      | .ok vrows => .ok { values := vrows, shape := shape }
      | .err e => .err e
      | .panic => .panic
    | .err e => .err e
    | .panic => .panic

/-- Sequential Go `for i := 0; ...` loop over the given index list, threading
the store; a returned error or a panic aborts the loop. -/
def loopIdx (body : Nat → Store T → GoResult (Store T)) :
    List Nat → Store T → GoResult (Store T)
  | [], st => .ok st
  | i :: is, st =>
    match body i st with
    | .ok st2 => loopIdx body is st2
    | .err e => .err e
    | .panic => .panic

/-- Sequential Go `for i, v := range list` loop carrying the element values. -/
def loopVals (body : Nat → α → Store T → GoResult (Store T)) :
    Nat → List α → Store T → GoResult (Store T)
  | _, [], st => .ok st
  | i, a :: as, st =>
    match body i a st with
    | .ok st2 => loopVals body (i + 1) as st2
    | .err e => .err e
    | .panic => .panic

/-- One iteration of `Update`'s copy loop: `v, err := matrix.At(...)`, abort
on error, then `m.Set(...)` with the error value discarded as in the source. -/
def updateBody (m matrix : Matrix2D T) (p : Position) (y x : Nat)
    (stx : Store T) : GoResult (Store T) :=
  match Matrix2D.At stx matrix ⟨(y : Int), (x : Int)⟩ with
  | .ok v =>
    match Matrix2D.Set stx m ⟨(y : Int) + p.row, (x : Int) + p.column⟩ v with
    | .ok st2 => .ok st2
    | .err _ => .ok stx
    | .panic => .panic
  | .err e => .err e
  | .panic => .panic

/-- `Update` from matrix2d.go: rejects an out-of-bounds starting position,
then rejects a paste that overruns the target; otherwise copies the source
cell by cell, reading `matrix.At` inside the loop. -/
def Matrix2D.Update (st : Store T) (m : Matrix2D T) (p : Position)
    (matrix : Matrix2D T) : GoResult (Store T) :=
  if isPositionOutOfBounds m p then .err "update starting position is out of bounds"
  else if p.column + matrix.shape.width > m.shape.width ∨
      p.row + matrix.shape.height > m.shape.height then
    .err "slide to update is out of bounds"
  else
    loopIdx
      (fun y sty =>
        loopIdx (updateBody m matrix p y)
          (List.range matrix.shape.width.toNat) sty)
      (List.range matrix.shape.height.toNat) st

/-- An initialization policy: `Matrix2DOpts` mutates the store through the
freshly built matrix, or fails. -/
abbrev Matrix2DOpts (T : Type) := Store T → Matrix2D T → GoResult (Store T)

/-- One iteration of `WithData`'s copy loop: `m.Set(&Position{yRow, xCol}, v)`
with the error propagated. -/
def withDataBody (m : Matrix2D T) (yRow xCol : Nat) (v : T)
    (stx : Store T) : GoResult (Store T) :=
  match Matrix2D.Set stx m ⟨(yRow : Int), (xCol : Int)⟩ v with
  | .ok st2 => .ok st2
  | .err e => .err e
  | .panic => .panic

/-- `WithData` from matrix2d.go: rejects nil data, empty data, a row-count
mismatch, and a width mismatch of the FIRST row only; then copies every
supplied element via `Set`, propagating its error. -/
def WithData (data : Option (List (List T))) : Matrix2DOpts T :=
  fun st m =>
    match data with
    | none => .err "WithData should have a value to initialize the matrix"
    | some rows =>
      if rows.length = 0 then .err "WithData empty data not alowed"
      else if (rows.length : Int) ≠ m.shape.height then
        .err "WithData height rows shape missmatch"
      else if ((rows.headD []).length : Int) ≠ m.shape.width then
        .err "WithData width cols shape missmatch"
      else
        loopVals
          (fun yRow row sty => loopVals (withDataBody m yRow) 0 row sty)
          0 rows st

/-- `WithConstant` from matrix2d.go: zero is a no-op, otherwise every cell is
`Set` to `k`, propagating its error. -/
def WithConstant [Zero T] [DecidableEq T] (k : T) : Matrix2DOpts T :=
  fun st m =>
    if k = 0 then .ok st else
    loopIdx
      (fun y sty =>
        loopIdx
          (fun x stx =>
            match Matrix2D.Set stx m ⟨(y : Int), (x : Int)⟩ k with
            | .ok st2 => .ok st2
            | .err e => .err e
            | .panic => .panic)
          (List.range m.shape.width.toNat) sty)
      (List.range m.shape.height.toNat) st

/-- Apply the option list in order, as `New2D`'s loop does. -/
def applyOpts : List (Matrix2DOpts T) → Store T → Matrix2D T → GoResult (Store T)
  | [], st, _ => .ok st
  | o :: os, st, m =>
    match o st m with
    | .ok st2 => applyOpts os st2 m
    | .err e => .err e
    | .panic => .panic

/-- The matrix value `New2D` builds before applying options: `shape.Height`
fresh rows (arrays `stLen`, `stLen + 1`, …), each a full view of a
`shape.Width`-element array. -/
def freshMatrix (stLen : Nat) (shape : Shape) : Matrix2D T :=
  ⟨(List.range shape.height.toNat).map fun i =>
    GoSlice.mk (stLen + i) 0 shape.width.toNat shape.width.toNat, shape⟩

/-- `New2D` from matrix2d.go: `make([][]T, 0, shape.Height)` panics when the
height is negative, and `make([]T, shape.Width)` inside the loop panics when
the width is negative and the loop runs; otherwise `Height` fresh zeroed rows
of `Width` elements are allocated and the options applied in order. -/
def New2D [Zero T] (st : Store T) (shape : Shape) (opts : List (Matrix2DOpts T)) :
    GoResult (Store T × Matrix2D T) :=
  if shape.height < 0 then .panic
  else if shape.width < 0 ∧ 0 < shape.height then .panic
  else
    match applyOpts opts
      (st ++ List.replicate shape.height.toNat
        (List.replicate shape.width.toNat (0 : T)))
      (freshMatrix st.length shape) with
    | .ok st2 => .ok (st2, freshMatrix st.length shape)
    | .err e => .err e
    | .panic => .panic

/-- Observer used in theorem statements: materialize the matrix contents row
by row from the store (what Go's `GetValues` lets a caller read). -/
def valuesOf (st : Store T) (m : Matrix2D T) : List (List T) :=
  m.values.map fun r => ((storeRead st r.arr).drop r.off).take r.len

/-! ## Well-formedness

Invariants every matrix reachable through the package API satisfies: the row
slices really have `shape.width` elements backed by the store.  (`Slice`'s
results can violate the height part — that is one of the findings.) -/

/-- A row slice of width `w` whose extent lies inside its backing array. -/
def rowWF (st : Store T) (r : GoSlice) (w : Nat) : Prop :=
  r.len = w ∧ r.len ≤ r.cap ∧ r.off + r.cap ≤ (storeRead st r.arr).length

/-- The matrix's declared shape is nonnegative, it has `shape.height` rows,
and each row is a well-formed slice of `shape.width` elements. -/
def WF (st : Store T) (m : Matrix2D T) : Prop :=
  0 ≤ m.shape.width ∧ 0 ≤ m.shape.height ∧
    m.values.length = m.shape.height.toNat ∧
    ∀ r ∈ m.values, rowWF st r m.shape.width.toNat

/-- Rows have pairwise distinct backing arrays (true of every matrix the API
can build: `New2D` allocates fresh arrays and `Slice` subsets them). -/
def DistinctRows (m : Matrix2D T) : Prop := (m.values.map GoSlice.arr).Nodup

/-- Rows with `cap = len`, as `New2D` allocates them. -/
def Tight (m : Matrix2D T) : Prop := ∀ r ∈ m.values, r.cap = r.len

/-- `p` is a valid position for `m`'s declared shape. -/
def InBounds (m : Matrix2D T) (p : Position) : Prop :=
  0 ≤ p.row ∧ p.row < m.shape.height ∧ 0 ≤ p.column ∧ p.column < m.shape.width

instance (st : Store T) (r : GoSlice) (w : Nat) : Decidable (rowWF st r w) := by
  unfold rowWF; infer_instance

instance (st : Store T) (m : Matrix2D T) : Decidable (WF st m) := by
  unfold WF; infer_instance

instance (m : Matrix2D T) : Decidable (DistinctRows m) := by
  unfold DistinctRows; infer_instance

instance (m : Matrix2D T) : Decidable (Tight m) := by
  unfold Tight; infer_instance

instance (m : Matrix2D T) (p : Position) : Decidable (InBounds m p) := by
  unfold InBounds; infer_instance

/-! ## Store helper lemmas -/

theorem storeWrite_length (st : Store T) (a : Nat) (l : List T) :
    (storeWrite st a l).length = st.length := List.length_set st a l

theorem storeRead_storeWrite_self (st : Store T) (a : Nat) (l : List T)
    (h : a < st.length) : storeRead (storeWrite st a l) a = l := by
  simp [storeRead, storeWrite, List.getD_eq_getElem?_getD, List.getElem?_set_self h]

theorem storeRead_storeWrite_ne (st : Store T) (a b : Nat) (l : List T)
    (h : b ≠ a) : storeRead (storeWrite st b l) a = storeRead st a := by
  simp [storeRead, storeWrite, List.getD_eq_getElem?_getD, List.getElem?_set_ne h]

theorem storeRead_length_storeWrite (st : Store T) (a b : Nat) (l : List T)
    (h : (storeRead st b).length = l.length) :
    (storeRead (storeWrite st b l) a).length = (storeRead st a).length := by
  rcases eq_or_ne b a with rfl | hne
  · by_cases hb : b < st.length
    · rw [storeRead_storeWrite_self st b l hb, ← h]
    · have : st.set b l = st := List.set_eq_of_length_le (by omega)
      simp [storeWrite, this]
  · rw [storeRead_storeWrite_ne st a b l hne]

/-- A nonempty well-formed row points at a real array of the store. -/
theorem rowWF_arr_lt (st : Store T) (r : GoSlice) (w : Nat)
    (h : rowWF st r w) (hw : 0 < w) : r.arr < st.length := by
  obtain ⟨h1, h2, h3⟩ := h
  by_contra hge
  have hnone : st[r.arr]? = none := List.getElem?_eq_none (by omega)
  have : storeRead st r.arr = [] := by
    rw [storeRead, List.getD_eq_getElem?_getD, hnone]
    rfl
  rw [this] at h3
  simp at h3
  omega

theorem oob_false_iff (m : Matrix2D T) (p : Position) :
    isPositionOutOfBounds m p = false ↔ InBounds m p := by
  simp [isPositionOutOfBounds, InBounds]
  omega

/-! ## Set and At -/

/-- `At` only looks at one backing-store location: the addressed row's array
at the addressed column's index. -/
theorem At_congr_cell (st1 st2 : Store T) (m : Matrix2D T) (q : Position)
    (h : ∀ r, m.values[q.row.toNat]? = some r →
      (storeRead st1 r.arr)[r.off + q.column.toNat]? =
        (storeRead st2 r.arr)[r.off + q.column.toNat]?) :
    Matrix2D.At st1 m q = Matrix2D.At st2 m q := by
  unfold Matrix2D.At
  cases hb : isPositionOutOfBounds m q with
  | true => simp
  | false =>
    simp only [Bool.false_eq_true, if_false]
    cases hr : m.values[q.row.toNat]? with
    | none => rfl
    | some r => simp only [sliceIndex, h r hr]

/-- The row fetched for an in-bounds position of a well-formed matrix. -/
theorem row_of_inBounds (st : Store T) (m : Matrix2D T) (p : Position)
    (hwf : WF st m) (hin : InBounds m p) :
    ∃ r, m.values[p.row.toNat]? = some r ∧ r ∈ m.values ∧
      rowWF st r m.shape.width.toNat := by
  obtain ⟨hw, hh, hlen, hrows⟩ := hwf
  obtain ⟨h1, h2, h3, h4⟩ := hin
  have hlt : p.row.toNat < m.values.length := by omega
  refine ⟨m.values[p.row.toNat], List.getElem?_eq_getElem hlt, List.getElem_mem hlt, ?_⟩
  exact hrows _ (List.getElem_mem hlt)

/-- Successful `Set` writes exactly one store location of the row's array. -/
theorem Set_ok_spec (st : Store T) (m : Matrix2D T) (p : Position) (v : T)
    (hwf : WF st m) (hin : InBounds m p) :
    ∃ r, m.values[p.row.toNat]? = some r ∧ rowWF st r m.shape.width.toNat ∧
      r.arr < st.length ∧ r.off + p.column.toNat < (storeRead st r.arr).length ∧
      Matrix2D.Set st m p v =
        .ok (storeWrite st r.arr
          ((storeRead st r.arr).set (r.off + p.column.toNat) v)) := by
  obtain ⟨r, hr, hmem, hrwf⟩ := row_of_inBounds st m p hwf hin
  have hw0 : 0 < m.shape.width.toNat := by
    obtain ⟨_, _, h3, h4⟩ := hin
    omega
  have harr := rowWF_arr_lt st r _ hrwf hw0
  obtain ⟨hl, hc, hb⟩ := hrwf
  obtain ⟨h1, h2, h3, h4⟩ := hin
  have hcol : 0 ≤ p.column ∧ p.column < (r.len : Int) := by
    constructor
    · exact h3
    · omega
  have hidx : r.off + p.column.toNat < (storeRead st r.arr).length := by omega
  refine ⟨r, hr, ⟨hl, hc, hb⟩, harr, hidx, ?_⟩
  unfold Matrix2D.Set
  rw [(oob_false_iff m p).mpr ⟨h1, h2, h3, h4⟩]
  simp only [Bool.false_eq_true, if_false, hr, sliceWrite, if_pos hcol]

/-- Successful `At` reads exactly that store location. -/
theorem At_ok_spec (st : Store T) (m : Matrix2D T) (p : Position)
    (hwf : WF st m) (hin : InBounds m p) :
    ∃ r v, m.values[p.row.toNat]? = some r ∧
      (storeRead st r.arr)[r.off + p.column.toNat]? = some v ∧
      Matrix2D.At st m p = .ok v := by
  obtain ⟨r, hr, hmem, hrwf⟩ := row_of_inBounds st m p hwf hin
  obtain ⟨hl, hc, hb⟩ := hrwf
  obtain ⟨h1, h2, h3, h4⟩ := hin
  have hcol : 0 ≤ p.column ∧ p.column < (r.len : Int) := by
    constructor
    · exact h3
    · omega
  have hidx : r.off + p.column.toNat < (storeRead st r.arr).length := by omega
  refine ⟨r, (storeRead st r.arr)[r.off + p.column.toNat], hr, ?_, ?_⟩
  · exact List.getElem?_eq_getElem hidx
  · unfold Matrix2D.At
    rw [(oob_false_iff m p).mpr ⟨h1, h2, h3, h4⟩]
    simp only [Bool.false_eq_true, if_false, hr, sliceIndex, if_pos hcol,
      List.getElem?_eq_getElem hidx]

/-- After a successful `Set`, reading the same cell gives the new value, and
every other cell of the matrix reads as before. -/
theorem Set_spec (st : Store T) (m : Matrix2D T) (p : Position) (v : T)
    (hwf : WF st m) (hin : InBounds m p) :
    ∃ st2, Matrix2D.Set st m p v = .ok st2 ∧
      Matrix2D.At st2 m p = .ok v ∧
      (∀ a, (storeRead st2 a).length = (storeRead st a).length) ∧
      (DistinctRows m → ∀ q, InBounds m q → q ≠ p →
        Matrix2D.At st2 m q = Matrix2D.At st m q) := by
  obtain ⟨r, hr, hrwf, harr, hidx, hset⟩ := Set_ok_spec st m p v hwf hin
  obtain ⟨hl, hc, hb⟩ := hrwf
  obtain ⟨h1, h2, h3, h4⟩ := hin
  refine ⟨_, hset, ?_, ?_, ?_⟩
  · -- read-back
    unfold Matrix2D.At
    rw [(oob_false_iff m p).mpr ⟨h1, h2, h3, h4⟩]
    simp only [Bool.false_eq_true, if_false, hr, sliceIndex]
    rw [if_pos (by constructor <;> omega)]
    rw [storeRead_storeWrite_self st r.arr _ harr,
      List.getElem?_set_self (by omega)]
  · -- lengths preserved
    intro a
    exact storeRead_length_storeWrite st a r.arr _ (by simp)
  · -- other cells unchanged
    intro hnd q hq hne
    apply At_congr_cell
    intro r2 hr2
    by_cases hrow : q.row = p.row
    · -- same row, different column: the written array, at a different index
      rw [hrow] at hr2
      rw [hr] at hr2
      have hre : r2 = r := (Option.some.inj hr2).symm
      subst hre
      rw [storeRead_storeWrite_self st r2.arr _ harr]
      have hcne : q.column ≠ p.column := by
        intro hcc
        exact hne (by cases q; cases p; simp_all)
      have : r2.off + p.column.toNat ≠ r2.off + q.column.toNat := by
        obtain ⟨hq1, hq2, hq3, hq4⟩ := hq
        omega
      exact List.getElem?_set_ne this
    · -- different row: distinct rows have distinct arrays, so untouched
      obtain ⟨hq1, hq2, hq3, hq4⟩ := hq
      have hwfl : m.values.length = m.shape.height.toNat := hwf.2.2.1
      have hqlt : q.row.toNat < m.values.length := by omega
      have hnd2 : (m.values.map GoSlice.arr).Nodup := hnd
      have hargr : r2.arr ≠ r.arr := by
        intro hcontra
        have hq? : (m.values.map GoSlice.arr)[q.row.toNat]? = some r2.arr := by
          rw [List.getElem?_map, hr2]
          rfl
        have hp? : (m.values.map GoSlice.arr)[p.row.toNat]? = some r.arr := by
          rw [List.getElem?_map, hr]
          rfl
        have heq : (m.values.map GoSlice.arr)[q.row.toNat]? =
            (m.values.map GoSlice.arr)[p.row.toNat]? := by
          rw [hq?, hp?, hcontra]
        have := List.getElem?_inj (by simpa using hqlt) hnd2 heq
        omega
      rw [storeRead_storeWrite_ne st r2.arr r.arr _ (fun h => hargr h.symm)]

theorem oob_true_iff (m : Matrix2D T) (p : Position) :
    isPositionOutOfBounds m p = true ↔
      (p.row < 0 ∨ m.shape.height ≤ p.row ∨ p.column < 0 ∨
        m.shape.width ≤ p.column) := by
  simp [isPositionOutOfBounds]
  omega

theorem Set_err_of_oob (st : Store T) (m : Matrix2D T) (p : Position) (v : T)
    (h : isPositionOutOfBounds m p = true) :
    Matrix2D.Set st m p v = .err "out of bound position" := by
  unfold Matrix2D.Set
  rw [h]
  rfl

theorem At_err_of_oob (st : Store T) (m : Matrix2D T) (p : Position)
    (h : isPositionOutOfBounds m p = true) :
    Matrix2D.At st m p = .err "out of bound position" := by
  unfold Matrix2D.At
  rw [h]
  rfl

/-! ## Claims C6 and C7 -/

/-- C6: for every position `p`, both `Set(p, v)` and `At(p)` fail with
`OutOfBounds` exactly when `p.row < 0`, `p.row ≥ shape.height`,
`p.column < 0`, or `p.column ≥ shape.width`, with no clamping or wraparound;
a successful `Set` overwrites exactly the one addressed cell leaving all
other cells unchanged.  (`At` never modifies any cell: in this embedding its
type returns no store, mirroring that the Go method only reads.)  Stated for
well-formed matrices with distinct row buffers, the invariant of every matrix
the API constructs. -/
theorem claim_C6 (st : Store T) (m : Matrix2D T) (p : Position) (v : T)
    (hwf : WF st m) (hnd : DistinctRows m) :
    ((∃ e, Matrix2D.Set st m p v = .err e) ↔
      (p.row < 0 ∨ p.row ≥ m.shape.height ∨ p.column < 0 ∨
        p.column ≥ m.shape.width)) ∧
    ((∃ e, Matrix2D.At st m p = .err e) ↔
      (p.row < 0 ∨ p.row ≥ m.shape.height ∨ p.column < 0 ∨
        p.column ≥ m.shape.width)) ∧
    (¬ (p.row < 0 ∨ p.row ≥ m.shape.height ∨ p.column < 0 ∨
        p.column ≥ m.shape.width) →
      ∃ st2, Matrix2D.Set st m p v = .ok st2 ∧
        Matrix2D.At st2 m p = .ok v ∧
        ∀ q, InBounds m q → q ≠ p →
          Matrix2D.At st2 m q = Matrix2D.At st m q) := by
  have hoob : ∀ (cond : (p.row < 0 ∨ p.row ≥ m.shape.height ∨ p.column < 0 ∨
      p.column ≥ m.shape.width)), isPositionOutOfBounds m p = true :=
    fun cond => (oob_true_iff m p).mpr (by omega)
  have hinb : ¬ (p.row < 0 ∨ p.row ≥ m.shape.height ∨ p.column < 0 ∨
      p.column ≥ m.shape.width) → InBounds m p := by
    intro h
    constructor
    · omega
    refine ⟨by omega, by omega, by omega⟩
  refine ⟨⟨?_, ?_⟩, ⟨?_, ?_⟩, ?_⟩
  · rintro ⟨e, he⟩
    by_contra hno
    obtain ⟨st2, hok, _⟩ := Set_spec st m p v hwf (hinb hno)
    rw [hok] at he
    exact GoResult.noConfusion he
  · intro h
    exact ⟨_, Set_err_of_oob st m p v (hoob h)⟩
  · rintro ⟨e, he⟩
    by_contra hno
    obtain ⟨r, w, _, _, hat⟩ := At_ok_spec st m p hwf (hinb hno)
    rw [hat] at he
    exact GoResult.noConfusion he
  · intro h
    exact ⟨_, At_err_of_oob st m p (hoob h)⟩
  · intro hno
    obtain ⟨st2, hok, hback, _, hother⟩ := Set_spec st m p v hwf (hinb hno)
    exact ⟨st2, hok, hback, hother hnd⟩

/-- Witness for C6 at a concrete input: a 2×2 zero matrix with fresh rows. -/
theorem claim_C6_witness :
    (WF [[0, 0], [0, 0]]
        (Matrix2D.mk [⟨0, 0, 2, 2⟩, ⟨1, 0, 2, 2⟩] ⟨2, 2⟩ : Matrix2D Int) ∧
      DistinctRows
        (Matrix2D.mk [⟨0, 0, 2, 2⟩, ⟨1, 0, 2, 2⟩] ⟨2, 2⟩ : Matrix2D Int)) ∧
    (((∃ e, Matrix2D.Set [[0, 0], [0, 0]]
        (Matrix2D.mk [⟨0, 0, 2, 2⟩, ⟨1, 0, 2, 2⟩] ⟨2, 2⟩ : Matrix2D Int)
        ⟨1, 0⟩ 7 = .err e) ↔
      ((1 : Int) < 0 ∨ (1 : Int) ≥ 2 ∨ (0 : Int) < 0 ∨ (0 : Int) ≥ 2)) ∧
    ((∃ e, Matrix2D.At [[0, 0], [0, 0]]
        (Matrix2D.mk [⟨0, 0, 2, 2⟩, ⟨1, 0, 2, 2⟩] ⟨2, 2⟩ : Matrix2D Int)
        ⟨1, 0⟩ = .err e) ↔
      ((1 : Int) < 0 ∨ (1 : Int) ≥ 2 ∨ (0 : Int) < 0 ∨ (0 : Int) ≥ 2)) ∧
    (¬ ((1 : Int) < 0 ∨ (1 : Int) ≥ 2 ∨ (0 : Int) < 0 ∨ (0 : Int) ≥ 2) →
      ∃ st2, Matrix2D.Set [[0, 0], [0, 0]]
          (Matrix2D.mk [⟨0, 0, 2, 2⟩, ⟨1, 0, 2, 2⟩] ⟨2, 2⟩ : Matrix2D Int)
          ⟨1, 0⟩ 7 = .ok st2 ∧
        Matrix2D.At st2
          (Matrix2D.mk [⟨0, 0, 2, 2⟩, ⟨1, 0, 2, 2⟩] ⟨2, 2⟩ : Matrix2D Int)
          ⟨1, 0⟩ = .ok 7 ∧
        ∀ q, InBounds
            (Matrix2D.mk [⟨0, 0, 2, 2⟩, ⟨1, 0, 2, 2⟩] ⟨2, 2⟩ : Matrix2D Int)
            q → q ≠ ⟨1, 0⟩ →
          Matrix2D.At st2
              (Matrix2D.mk [⟨0, 0, 2, 2⟩, ⟨1, 0, 2, 2⟩] ⟨2, 2⟩ : Matrix2D Int)
              q =
            Matrix2D.At [[0, 0], [0, 0]]
              (Matrix2D.mk [⟨0, 0, 2, 2⟩, ⟨1, 0, 2, 2⟩] ⟨2, 2⟩ : Matrix2D Int)
              q)) :=
  ⟨⟨by decide, by decide⟩, claim_C6 _ _ _ _ (by decide) (by decide)⟩

/-- C7: read-after-write — for every well-formed matrix, every position valid
within its shape, and every value `v`, `Set(p, v)` succeeds and a subsequent
`At(p)` on the written store returns `v`. -/
theorem claim_C7 (st : Store T) (m : Matrix2D T) (p : Position) (v : T)
    (hwf : WF st m) (hin : InBounds m p) :
    ∃ st2, Matrix2D.Set st m p v = .ok st2 ∧ Matrix2D.At st2 m p = .ok v := by
  obtain ⟨st2, hok, hback, _, _⟩ := Set_spec st m p v hwf hin
  exact ⟨st2, hok, hback⟩

/-- Witness for C7 at a concrete input. -/
theorem claim_C7_witness :
    (WF [[0, 0], [0, 0]]
        (Matrix2D.mk [⟨0, 0, 2, 2⟩, ⟨1, 0, 2, 2⟩] ⟨2, 2⟩ : Matrix2D Int) ∧
      InBounds
        (Matrix2D.mk [⟨0, 0, 2, 2⟩, ⟨1, 0, 2, 2⟩] ⟨2, 2⟩ : Matrix2D Int)
        ⟨0, 1⟩) ∧
    ∃ st2, Matrix2D.Set [[0, 0], [0, 0]]
        (Matrix2D.mk [⟨0, 0, 2, 2⟩, ⟨1, 0, 2, 2⟩] ⟨2, 2⟩ : Matrix2D Int)
        ⟨0, 1⟩ (5 : Int) = .ok st2 ∧
      Matrix2D.At st2
        (Matrix2D.mk [⟨0, 0, 2, 2⟩, ⟨1, 0, 2, 2⟩] ⟨2, 2⟩ : Matrix2D Int)
        ⟨0, 1⟩ = .ok 5 :=
  ⟨⟨by decide, by decide⟩, claim_C7 _ _ _ _ (by decide) (by decide)⟩

/-! ## Claim C9 (vector Cross) -/

/-- C9: the 2D `Cross` is `v.X*w.Y + v.Y*w.X`, which is symmetric rather than
antisymmetric, and `v.Cross(v) = 2*v.X*v.Y` rather than 0 — it is not the
signed-area cross-product analog its comment describes. -/
theorem claim_C9 (v w : Vector2D Int) :
    Vector2D.Cross v w = v.x * w.y + v.y * w.x ∧
    Vector2D.Cross v w = Vector2D.Cross w v ∧
    Vector2D.Cross v v = 2 * (v.x * v.y) := by
  unfold Vector2D.Cross
  refine ⟨rfl, by ring, by ring⟩

/-! ## Claim C10 (New2D validation) -/

/-- Counterexample to C10 as stated: with width `1 ≥ 0` and height `-1`,
`New2D` does not return success — Go's `make([][]T, 0, shape.Height)` panics
on the negative capacity. -/
theorem claim_C10_counterexample :
    New2D ([] : Store Int) ⟨1, -1⟩ [] = .panic := by decide

/-- C10 amended: `New2D` performs no validation of its shape for nonnegative
dimensions — for every shape with `width ≥ 0` and `height ≥ 0` and no
policies it returns success (never an error), and when `height = 0` the
resulting matrix has an empty row list.  (A negative height instead panics in
`make`, as the counterexample shows.) -/
theorem claim_C10_amended [Zero T] (st : Store T) (shape : Shape)
    (hw : 0 ≤ shape.width) (hh : 0 ≤ shape.height) :
    ∃ st2 m, New2D st shape [] = .ok (st2, m) ∧ m.shape = shape ∧
      (shape.height = 0 → m.values = []) := by
  unfold New2D
  rw [if_neg (by omega), if_neg (by omega)]
  refine ⟨_, _, rfl, rfl, ?_⟩
  intro h0
  simp [freshMatrix, h0]

/-- Witness for the amended C10 at a concrete input (width 2, height 0). -/
theorem claim_C10_amended_witness :
    ((0 : Int) ≤ 2 ∧ (0 : Int) ≤ 0) ∧
    ∃ st2 m, New2D ([] : Store Int) ⟨2, 0⟩ [] = .ok (st2, m) ∧
      m.shape = ⟨2, 0⟩ ∧ m.values = [] := by
  refine ⟨⟨by decide, by decide⟩, ?_⟩
  obtain ⟨st2, m, h1, h2, h3⟩ :=
    claim_C10_amended ([] : Store Int) ⟨2, 0⟩ (by decide) (by decide)
  exact ⟨st2, m, h1, h2, h3 rfl⟩

/-! ## Concrete scenario matrices

The 4×4 diagonal matrix of the spec's slicing scenario and the 6-row, 5-column
matrix of its error scenario, with the stores and matrices `New2D`/`Set`
produce for them spelled out. -/

/-- Run a list of `Set` calls in order, as the Go tests do. -/
def setList (st : Store T) (m : Matrix2D T) :
    List (Position × T) → GoResult (Store T)
  | [] => .ok st
  | (p, v) :: rest =>
    match Matrix2D.Set st m p v with
    | .ok st2 => setList st2 m rest
    | .err e => .err e
    | .panic => .panic

def zero4Store : Store Int :=
  [[0, 0, 0, 0], [0, 0, 0, 0], [0, 0, 0, 0], [0, 0, 0, 0]]

def diag4Store : Store Int :=
  [[1, 0, 0, 0], [0, 1, 0, 0], [0, 0, 1, 0], [0, 0, 0, 1]]

def mat4 : Matrix2D Int :=
  ⟨[⟨0, 0, 4, 4⟩, ⟨1, 0, 4, 4⟩, ⟨2, 0, 4, 4⟩, ⟨3, 0, 4, 4⟩], ⟨4, 4⟩⟩

/-- The matrix `Slice mat4 (1,3) (0,1)` returns: two retained rows, but a
recorded shape of 3×3. -/
def slice13 : Matrix2D Int := ⟨[⟨0, 1, 3, 3⟩, ⟨1, 1, 3, 3⟩], ⟨3, 3⟩⟩

/-! ## Claim C1 (slice shape) -/

/-- C1 fails on the code: slicing the 4×4 diagonal matrix over columns
`[1,3]` and rows `[0,1]` yields a matrix whose `Values` are the claimed
`[0,0,0]/[1,0,0]` (two rows of three), but whose recorded shape is 3×3 — the
source computes `Shape.Height` from the column range (`x.Y + 1 - x.X`)
instead of the row range, contradicting the function's own documentation
example and leaving `shape.height ≠ len(Values)`. -/
theorem claim_C1_bug :
    New2D ([] : Store Int) ⟨4, 4⟩ [] = .ok (zero4Store, mat4) ∧
    setList zero4Store mat4
      [(⟨0, 0⟩, 1), (⟨1, 1⟩, 1), (⟨2, 2⟩, 1), (⟨3, 3⟩, 1)] = .ok diag4Store ∧
    Matrix2D.Slice mat4 ⟨1, 3⟩ ⟨0, 1⟩ = .ok slice13 ∧
    slice13.shape.width = 3 ∧
    slice13.shape.height = 3 ∧
    slice13.values.length = 2 ∧
    valuesOf diag4Store slice13 = [[0, 0, 0], [1, 0, 0]] := by decide

/-! ## Claim C3 (slice error handling) -/

def zero56Store : Store Int :=
  [[0, 0, 0, 0, 0], [0, 0, 0, 0, 0], [0, 0, 0, 0, 0], [0, 0, 0, 0, 0],
    [0, 0, 0, 0, 0], [0, 0, 0, 0, 0]]

/-- The 6-row, 5-column zero matrix (`NewShape(5, 6)`). -/
def mat56 : Matrix2D Int :=
  ⟨[⟨0, 0, 5, 5⟩, ⟨1, 0, 5, 5⟩, ⟨2, 0, 5, 5⟩, ⟨3, 0, 5, 5⟩, ⟨4, 0, 5, 5⟩,
      ⟨5, 0, 5, 5⟩], ⟨5, 6⟩⟩

/-- C3 fails on the code: on the 6-row, 5-column matrix, the over-sized row
range `[0,6]` (extent 7 > 6) and the negative-extent row range `[2,0]` do not
return an `InvalidRange` error — the shape check never examines the row
range (its height component is computed from the column range), so Go's row
re-slicing `m.Values[y.X : y.Y+1]` faults with an uncatchable runtime panic. -/
theorem claim_C3_bug :
    New2D ([] : Store Int) ⟨5, 6⟩ [] = .ok (zero56Store, mat56) ∧
    Matrix2D.Slice mat56 ⟨0, 4⟩ ⟨0, 6⟩ = .panic ∧
    Matrix2D.Slice mat56 ⟨0, 4⟩ ⟨2, 0⟩ = .panic := by decide

/-! ## Slice characterization -/

theorem mapSubSlice_ok (rows : List GoSlice) (lo hi : Int)
    (out : List GoSlice) (h : mapSubSlice rows lo hi = .ok out) :
    out.length = rows.length ∧
    ∀ i (hi2 : i < rows.length),
      0 ≤ lo ∧ lo ≤ hi ∧ hi ≤ (rows[i].cap : Int) ∧
      out[i]? = some ⟨rows[i].arr, rows[i].off + lo.toNat, (hi - lo).toNat,
        rows[i].cap - lo.toNat⟩ := by
  induction rows generalizing out with
  | nil =>
    unfold mapSubSlice at h
    cases h
    exact ⟨rfl, fun i hi2 => absurd hi2 (by simp)⟩
  | cons r rest ih =>
    unfold mapSubSlice at h
    by_cases hc : 0 ≤ lo ∧ lo ≤ hi ∧ hi ≤ (r.cap : Int)
    · rw [subSlice, if_pos hc] at h
      cases hrest : mapSubSlice rest lo hi with
      | ok rest2 =>
        rw [hrest] at h
        cases h
        obtain ⟨hlen, hall⟩ := ih rest2 hrest
        refine ⟨by simp [hlen], ?_⟩
        intro i hi2
        match i with
        | 0 => exact ⟨hc.1, hc.2.1, by simpa using hc.2.2, by simp⟩
        | Nat.succ j =>
          have hj : j < rest.length := by simpa using hi2
          obtain ⟨a, b, c, d⟩ := hall j hj
          exact ⟨a, b, c, by simpa using d⟩
      | err e =>
        rw [hrest] at h
        exact GoResult.noConfusion h
      | panic =>
        rw [hrest] at h
        exact GoResult.noConfusion h
    · rw [subSlice, if_neg hc] at h
      exact GoResult.noConfusion h

theorem listSlice_ok (l : List α) (lo hi : Int) (out : List α)
    (h : listSlice l lo hi = .ok out) :
    0 ≤ lo ∧ lo ≤ hi ∧ hi ≤ (l.length : Int) ∧
    out.length = (hi - lo).toNat ∧
    ∀ i (hi2 : i < out.length), out[i]? = l[lo.toNat + i]? := by
  unfold listSlice at h
  by_cases hc : 0 ≤ lo ∧ lo ≤ hi ∧ hi ≤ (l.length : Int)
  · rw [if_pos hc] at h
    cases h
    obtain ⟨h1, h2, h3⟩ := hc
    have hlen : ((l.drop lo.toNat).take (hi - lo).toNat).length = (hi - lo).toNat := by
      simp
      omega
    refine ⟨h1, h2, h3, hlen, ?_⟩
    intro i hi2
    rw [hlen] at hi2
    rw [List.getElem?_take_of_lt hi2, List.getElem?_drop]
  · rw [if_neg hc] at h
    exact GoResult.noConfusion h

/-- What a successful `Slice` returns: the (buggy, both-components-from-`x`)
shape, the extent checks that passed, and each retained row as a column
sub-slice of the corresponding parent row. -/
theorem Slice_ok_spec (m : Matrix2D T) (x y : Vector2D Int) (s : Matrix2D T)
    (h : Matrix2D.Slice m x y = .ok s) :
    s.shape = ⟨x.y + 1 - x.x, x.y + 1 - x.x⟩ ∧
    0 ≤ x.y + 1 - x.x ∧
    x.y + 1 - x.x ≤ m.shape.width ∧
    x.y + 1 - x.x ≤ m.shape.height ∧
    0 ≤ y.x ∧ y.x ≤ y.y + 1 ∧ y.y + 1 ≤ (m.values.length : Int) ∧
    s.values.length = (y.y + 1 - y.x).toNat ∧
    ∀ i (hi2 : i < s.values.length), ∃ r,
      m.values[y.x.toNat + i]? = some r ∧
      0 ≤ x.x ∧ x.x ≤ x.y + 1 ∧ x.y + 1 ≤ (r.cap : Int) ∧
      s.values[i]? = some ⟨r.arr, r.off + x.x.toNat, (x.y + 1 - x.x).toNat,
        r.cap - x.x.toNat⟩ := by
  unfold Matrix2D.Slice at h
  by_cases hc : x.y + 1 - x.x < 0 ∨ x.y + 1 - x.x < 0 ∨
      x.y + 1 - x.x > m.shape.width ∨ x.y + 1 - x.x > m.shape.height
  · rw [if_pos hc] at h
    exact GoResult.noConfusion h
  · rw [if_neg hc] at h
    push_neg at hc
    obtain ⟨hc1, _, hc3, hc4⟩ := hc
    cases hrows : listSlice m.values y.x (y.y + 1) with
    | ok rows =>
      rw [hrows] at h
      dsimp only at h
      cases hsub : mapSubSlice rows x.x (x.y + 1) with
      | ok vrows =>
        rw [hsub] at h
        dsimp only at h
        cases h
        obtain ⟨hl1, hl2, hl3, hl4, hl5⟩ := listSlice_ok _ _ _ _ hrows
        obtain ⟨hm1, hm2⟩ := mapSubSlice_ok _ _ _ _ hsub
        refine ⟨rfl, by omega, by omega, by omega, hl1, hl2, hl3, ?_, ?_⟩
        · simpa [hm1] using hl4
        · intro i hi2
          have hiv : i < vrows.length := by simpa using hi2
          have hir : i < rows.length := by omega
          obtain ⟨ha, hb, hcc, hd⟩ := hm2 i hir
          have hrow_i : rows[i]? = m.values[y.x.toNat + i]? := hl5 i (by omega)
          have : m.values[y.x.toNat + i]? = some rows[i] := by
            rw [← hrow_i]
            exact List.getElem?_eq_getElem hir
          exact ⟨rows[i], this, ha, hb, hcc, by simpa using hd⟩
      | err e =>
        rw [hsub] at h
        exact GoResult.noConfusion h
      | panic =>
        rw [hsub] at h
        exact GoResult.noConfusion h
    | err e =>
      rw [hrows] at h
      exact GoResult.noConfusion h
    | panic =>
      rw [hrows] at h
      exact GoResult.noConfusion h

/-- Evaluate a `Set` whose bounds check passes and whose row lookup succeeds. -/
theorem Set_eval (st : Store T) (m : Matrix2D T) (p : Position) (r : GoSlice)
    (v : T) (hin : InBounds m p)
    (hrow : m.values[p.row.toNat]? = some r)
    (hcond : p.column < (r.len : Int)) :
    Matrix2D.Set st m p v =
      .ok (storeWrite st r.arr
        ((storeRead st r.arr).set (r.off + p.column.toNat) v)) := by
  unfold Matrix2D.Set
  rw [(oob_false_iff m p).mpr hin]
  simp only [Bool.false_eq_true, if_false, hrow, sliceWrite]
  rw [if_pos ⟨hin.2.2.1, hcond⟩]

/-- Evaluate an `At` whose bounds check passes, whose row lookup succeeds and
whose store read yields a value. -/
theorem At_eval (st : Store T) (m : Matrix2D T) (p : Position) (r : GoSlice)
    (v : T) (hin : InBounds m p)
    (hrow : m.values[p.row.toNat]? = some r)
    (hcond : p.column < (r.len : Int))
    (hread : (storeRead st r.arr)[r.off + p.column.toNat]? = some v) :
    Matrix2D.At st m p = .ok v := by
  unfold Matrix2D.At
  rw [(oob_false_iff m p).mpr hin]
  simp only [Bool.false_eq_true, if_false, hrow, sliceIndex]
  rw [if_pos ⟨hin.2.2.1, hcond⟩, hread]

/-! ## Claim C2 (slice aliasing) -/

/-- The matrix `Slice mat4 (0,2) (0,1)` returns: shape 3×3 but two rows. -/
def slice02 : Matrix2D Int := ⟨[⟨0, 0, 3, 4⟩, ⟨1, 0, 3, 4⟩], ⟨3, 3⟩⟩

/-- Counterexample to C2 as stated: the slice of the 4×4 diagonal matrix over
columns `[0,2]` and rows `[0,1]` records shape 3×3 (because of the `Slice`
height bug) while retaining only two rows, so position `(2,0)` is in-bounds
for the slice; `Set((2,0), 9)` on the slice does not write through to the
parent — it is a runtime panic (`Values[2]` on a two-row slice), so no store
exists in which `At` on the parent returns the value. -/
theorem claim_C2_counterexample :
    New2D ([] : Store Int) ⟨4, 4⟩ [] = .ok (zero4Store, mat4) ∧
    setList zero4Store mat4
      [(⟨0, 0⟩, 1), (⟨1, 1⟩, 1), (⟨2, 2⟩, 1), (⟨3, 3⟩, 1)] = .ok diag4Store ∧
    Matrix2D.Slice mat4 ⟨0, 2⟩ ⟨0, 1⟩ = .ok slice02 ∧
    InBounds slice02 ⟨2, 0⟩ ∧
    Matrix2D.Set diag4Store slice02 ⟨2, 0⟩ (9 : Int) = .panic := by decide

/-- C2 amended: a matrix returned by a successful `Slice` of a well-formed
owning matrix aliases the parent's storage and copies no element — for every
position `p` whose row is below both the slice's recorded height and its
actual number of retained rows (these differ exactly when the height bug of
C1 strikes) and whose column is within the recorded width, `Set(p, v)` on the
slice makes `At` on the parent at the offset position return `v`, and a `Set`
on the parent inside the sliced region is visible through `At` on the
slice. -/
theorem claim_C2_amended (st : Store T) (m s : Matrix2D T) (x y : Vector2D Int)
    (p : Position) (v : T)
    (hwf : WF st m) (htight : Tight m)
    (hs : Matrix2D.Slice m x y = .ok s)
    (hr0 : 0 ≤ p.row) (hr1 : p.row < y.y + 1 - y.x)
    (hr2 : p.row < s.shape.height)
    (hc0 : 0 ≤ p.column) (hc1 : p.column < s.shape.width) :
    (∃ st2, Matrix2D.Set st s p v = .ok st2 ∧
      Matrix2D.At st2 m ⟨p.row + y.x, p.column + x.x⟩ = .ok v) ∧
    (∃ st3, Matrix2D.Set st m ⟨p.row + y.x, p.column + x.x⟩ v = .ok st3 ∧
      Matrix2D.At st3 s p = .ok v) := by
  obtain ⟨hshape, hext0, hextw, hexth, hy0, hy1, hy2, hslen, hrows⟩ :=
    Slice_ok_spec m x y s hs
  obtain ⟨hw0, hh0, hvlen, hrowwf⟩ := hwf
  have hilt : p.row.toNat < s.values.length := by omega
  obtain ⟨r, hr, hx0, hx1, hxcap, hsub⟩ := hrows p.row.toNat hilt
  have hrmem : r ∈ m.values := List.getElem?_mem hr
  obtain ⟨hrl, hrc, hrb⟩ := hrowwf r hrmem
  have hcapt : r.cap = r.len := htight r hrmem
  have hc1' : p.column < x.y + 1 - x.x := by
    rw [hshape] at hc1
    exact hc1
  -- the offset position is in bounds for the parent
  have hpin : InBounds m ⟨p.row + y.x, p.column + x.x⟩ :=
    ⟨show 0 ≤ p.row + y.x by omega,
     show p.row + y.x < m.shape.height by omega,
     show 0 ≤ p.column + x.x by omega,
     show p.column + x.x < m.shape.width by omega⟩
  -- the parent row is fetched at the same index the slice retains
  have hidxeq : (p.row + y.x).toNat = y.x.toNat + p.row.toNat := by omega
  have hparrow : m.values[(p.row + y.x).toNat]? = some r := by
    rw [hidxeq]
    exact hr
  have harrlt : r.arr < st.length :=
    rowWF_arr_lt st r m.shape.width.toNat ⟨hrl, hrc, hrb⟩ (by omega)
  constructor
  · -- Set on the slice, At on the parent
    refine ⟨storeWrite st r.arr
      ((storeRead st r.arr).set ((r.off + x.x.toNat) + p.column.toNat) v),
      ?_, ?_⟩
    · exact Set_eval st s p
        ⟨r.arr, r.off + x.x.toNat, (x.y + 1 - x.x).toNat, r.cap - x.x.toNat⟩ v
        ⟨hr0, hr2, hc0, hc1⟩ hsub
        (show p.column < (((x.y + 1 - x.x).toNat : Nat) : Int) by omega)
    · apply At_eval _ m _ r v hpin hparrow
        (show p.column + x.x < (r.len : Int) by omega)
      show (storeRead (storeWrite st r.arr
          ((storeRead st r.arr).set ((r.off + x.x.toNat) + p.column.toNat) v))
          r.arr)[r.off + (p.column + x.x).toNat]? = some v
      rw [storeRead_storeWrite_self st r.arr _ harrlt]
      have hridx : r.off + (p.column + x.x).toNat =
          (r.off + x.x.toNat) + p.column.toNat := by omega
      rw [hridx]
      exact List.getElem?_set_self (by omega)
  · -- Set on the parent, At on the slice
    refine ⟨storeWrite st r.arr
      ((storeRead st r.arr).set (r.off + (p.column + x.x).toNat) v), ?_, ?_⟩
    · exact Set_eval st m _ r v hpin hparrow
        (show p.column + x.x < (r.len : Int) by omega)
    · apply At_eval _ s p
        ⟨r.arr, r.off + x.x.toNat, (x.y + 1 - x.x).toNat, r.cap - x.x.toNat⟩ v
        ⟨hr0, hr2, hc0, hc1⟩ hsub
        (show p.column < (((x.y + 1 - x.x).toNat : Nat) : Int) by omega)
      show (storeRead (storeWrite st r.arr
          ((storeRead st r.arr).set (r.off + (p.column + x.x).toNat) v))
          r.arr)[(r.off + x.x.toNat) + p.column.toNat]? = some v
      rw [storeRead_storeWrite_self st r.arr _ harrlt]
      have hridx : (r.off + x.x.toNat) + p.column.toNat =
          r.off + (p.column + x.x).toNat := by omega
      rw [hridx]
      exact List.getElem?_set_self (by omega)

/-- Witness for the amended C2: the spec's 4×4 diagonal scenario, slicing
columns `[1,3]` and rows `[0,1]`, position `(1,0)` of the slice (which is the
parent's `(1,1)`), value 9, both directions. -/
theorem claim_C2_amended_witness :
    (WF diag4Store mat4 ∧ Tight mat4 ∧
      Matrix2D.Slice mat4 ⟨1, 3⟩ ⟨0, 1⟩ = .ok slice13 ∧
      (0 : Int) ≤ 1 ∧ (1 : Int) < 1 + 1 - 0 ∧
      (1 : Int) < slice13.shape.height ∧
      (0 : Int) ≤ 0 ∧ (0 : Int) < slice13.shape.width) ∧
    ((∃ st2, Matrix2D.Set diag4Store slice13 ⟨1, 0⟩ (9 : Int) = .ok st2 ∧
        Matrix2D.At st2 mat4 ⟨1 + 0, 0 + 1⟩ = .ok 9) ∧
      (∃ st3, Matrix2D.Set diag4Store mat4 ⟨1 + 0, 0 + 1⟩ (9 : Int) = .ok st3 ∧
        Matrix2D.At st3 slice13 ⟨1, 0⟩ = .ok 9)) :=
  ⟨⟨by decide, by decide, by decide, by decide, by decide, by decide,
    by decide, by decide⟩,
    claim_C2_amended diag4Store mat4 slice13 ⟨1, 3⟩ ⟨0, 1⟩ ⟨1, 0⟩ 9
      (by decide) (by decide) (by decide) (by decide) (by decide) (by decide)
      (by decide) (by decide)⟩

/-! ## Update characterization -/

/-- Well-formedness only depends on the lengths of the backing arrays. -/
theorem WF_congr (st st1 : Store T) (m : Matrix2D T)
    (h : ∀ a, (storeRead st1 a).length = (storeRead st a).length)
    (hwf : WF st m) : WF st1 m := by
  obtain ⟨a, b, c, d⟩ := hwf
  refine ⟨a, b, c, ?_⟩
  intro r hr
  obtain ⟨e, f, g⟩ := d r hr
  exact ⟨e, f, by rw [h r.arr]; exact g⟩

/-- `At` is unchanged between stores that agree on all of the matrix's row
arrays. -/
theorem At_congr_rows (st1 st2 : Store T) (m : Matrix2D T) (q : Position)
    (h : ∀ r ∈ m.values, storeRead st1 r.arr = storeRead st2 r.arr) :
    Matrix2D.At st1 m q = Matrix2D.At st2 m q := by
  apply At_congr_cell
  intro r hr
  rw [h r (List.getElem?_mem hr)]

/-- In a matrix with pairwise distinct row buffers, rows at different indices
have different backing arrays. -/
theorem distinctRows_arr_ne (m : Matrix2D T) (hnd : DistinctRows m)
    (i j : Nat) (hne : i ≠ j) (ri rj : GoSlice)
    (hi : m.values[i]? = some ri) (hj : m.values[j]? = some rj) :
    ri.arr ≠ rj.arr := by
  intro hcontra
  have hnd2 : (m.values.map GoSlice.arr).Nodup := hnd
  have hilt : i < m.values.length := by
    rcases List.getElem?_eq_some_iff.mp hi with ⟨h, _⟩
    exact h
  have hi2 : (m.values.map GoSlice.arr)[i]? = some ri.arr := by
    rw [List.getElem?_map, hi]
    rfl
  have hj2 : (m.values.map GoSlice.arr)[j]? = some rj.arr := by
    rw [List.getElem?_map, hj]
    rfl
  exact hne (List.getElem?_inj (by simpa using hilt) hnd2
    (by rw [hi2, hj2, hcontra]))

/-- Effect of the inner (column) loop of `Update` at a fixed source row `y`:
it succeeds and writes the source row's values into the target row's band,
touching no other array. -/
theorem update_inner (st : Store T) (tgt src : Matrix2D T) (p : Position)
    (hwt : WF st tgt) (hws : WF st src)
    (hdisj : ∀ r ∈ tgt.values, ∀ q ∈ src.values, r.arr ≠ q.arr)
    (hp0 : 0 ≤ p.row) (hp1 : 0 ≤ p.column)
    (hfit1 : p.column + src.shape.width ≤ tgt.shape.width)
    (hfit2 : p.row + src.shape.height ≤ tgt.shape.height)
    (y : Nat) (hy : y < src.shape.height.toNat)
    (rT : GoSlice) (hrT : tgt.values[p.row.toNat + y]? = some rT)
    (rS : GoSlice) (hrS : src.values[y]? = some rS)
    (xs : List Nat) (hxs : ∀ xx ∈ xs, xx < src.shape.width.toNat) :
    ∀ st1, st1.length = st.length →
      (∀ a, (storeRead st1 a).length = (storeRead st a).length) →
      (∀ q ∈ src.values, storeRead st1 q.arr = storeRead st q.arr) →
    ∃ st2, loopIdx (updateBody tgt src p y) xs st1 = .ok st2 ∧
      st2.length = st1.length ∧
      (∀ a, (storeRead st2 a).length = (storeRead st1 a).length) ∧
      (∀ a, a ≠ rT.arr → storeRead st2 a = storeRead st1 a) ∧
      (∀ k, (storeRead st2 rT.arr)[k]? =
        if ∃ xx ∈ xs, k = rT.off + p.column.toNat + xx then
          (storeRead st rS.arr)[rS.off + (k - (rT.off + p.column.toNat))]?
        else (storeRead st1 rT.arr)[k]?) := by
  induction xs with
  | nil =>
    intro st1 hstlen hlen hsrc
    refine ⟨st1, rfl, rfl, fun a => rfl, fun a _ => rfl, ?_⟩
    intro k
    rw [if_neg (by simp)]
  | cons x xs ih =>
    intro st1 hstlen hlen hsrc
    have hx : x < src.shape.width.toNat := hxs x (List.mem_cons_self x xs)
    obtain ⟨hsw0, hsh0, hslen, hsrows⟩ := hws
    obtain ⟨htw0, hth0, htlen, htrows⟩ := hwt
    -- facts about the two rows
    have hrTmem : rT ∈ tgt.values := List.getElem?_mem hrT
    have hrSmem : rS ∈ src.values := List.getElem?_mem hrS
    obtain ⟨hTl, hTc, hTb⟩ := htrows rT hrTmem
    obtain ⟨hSl, hSc, hSb⟩ := hsrows rS hrSmem
    -- the value read from the source in the ORIGINAL store
    have hsin : InBounds src ⟨(y : Int), (x : Int)⟩ :=
      ⟨show (0 : Int) ≤ (y : Int) by omega,
       show ((y : Int)) < src.shape.height by omega,
       show (0 : Int) ≤ (x : Int) by omega,
       show ((x : Int)) < src.shape.width by omega⟩
    obtain ⟨rS2, v, hrS2, hv, hat⟩ := At_ok_spec st src ⟨(y : Int), (x : Int)⟩
      ⟨hsw0, hsh0, hslen, hsrows⟩ hsin
    have hrS2eq : rS2 = rS := by
      have h1 : ((⟨(y : Int), (x : Int)⟩ : Position).row).toNat = y := by
        simp
      rw [h1, hrS] at hrS2
      exact (Option.some.inj hrS2).symm
    rw [hrS2eq] at hv
    -- the At in the loop reads the same value from the current store
    have hat1 : Matrix2D.At st1 src ⟨(y : Int), (x : Int)⟩ = .ok v := by
      rw [At_congr_rows st1 st src _ (fun q hq => hsrc q hq)]
      exact hat
    -- the Set writes the target row's array
    have htin : InBounds tgt ⟨(y : Int) + p.row, (x : Int) + p.column⟩ :=
      ⟨show (0 : Int) ≤ (y : Int) + p.row by omega,
       show ((y : Int)) + p.row < tgt.shape.height by omega,
       show (0 : Int) ≤ (x : Int) + p.column by omega,
       show ((x : Int)) + p.column < tgt.shape.width by omega⟩
    have hrT1 : tgt.values[((⟨(y : Int) + p.row, (x : Int) + p.column⟩ :
        Position).row).toNat]? = some rT := by
      have h1 : ((⟨(y : Int) + p.row, (x : Int) + p.column⟩ :
          Position).row).toNat = p.row.toNat + y := by
        simp only []
        omega
      rw [h1]
      exact hrT
    have hset := Set_eval st1 tgt ⟨(y : Int) + p.row, (x : Int) + p.column⟩
      rT v htin hrT1 (by simp only []; omega)
    -- the written store
    have harrlt : rT.arr < st1.length := by
      rw [hstlen]
      exact rowWF_arr_lt st rT tgt.shape.width.toNat ⟨hTl, hTc, hTb⟩ (by omega)
    have hbody : updateBody tgt src p y x st1 =
        .ok (storeWrite st1 rT.arr ((storeRead st1 rT.arr).set
          (rT.off + (((x : Int) + p.column)).toNat) v)) := by
      unfold updateBody
      rw [hat1]
      dsimp only
      rw [hset]
    have hidx : rT.off + (((x : Int) + p.column)).toNat =
        rT.off + p.column.toNat + x := by omega
    rw [hidx] at hbody
    set stw := storeWrite st1 rT.arr ((storeRead st1 rT.arr).set
      (rT.off + p.column.toNat + x) v) with hstw
    -- invariants for the recursive call
    have hwlen : ∀ a, (storeRead stw a).length = (storeRead st1 a).length := by
      intro a
      exact storeRead_length_storeWrite st1 a rT.arr _ (by simp)
    have hwstlen : stw.length = st1.length := storeWrite_length st1 rT.arr _
    have hwsrc : ∀ q ∈ src.values, storeRead stw q.arr = storeRead st q.arr := by
      intro q hq
      rw [hstw, storeRead_storeWrite_ne st1 q.arr rT.arr _
        (hdisj rT hrTmem q hq), hsrc q hq]
    obtain ⟨st2, hloop, hstlen2, hlen2, huntouched, hrow⟩ :=
      ih (fun xx hxx => hxs xx (List.mem_cons_of_mem x hxx)) stw
        (by omega) (fun a => by rw [hwlen a, hlen a]) hwsrc
    refine ⟨st2, ?_, by omega, ?_, ?_, ?_⟩
    · -- the loop runs the body then recurses
      simp only [loopIdx, hbody]
      exact hloop
    · intro a
      rw [hlen2 a, hwlen a]
    · intro a ha
      rw [huntouched a ha, hstw,
        storeRead_storeWrite_ne st1 a rT.arr _ (fun h => ha h.symm)]
    · intro k
      have hbase := hrow k
      have hread : (storeRead st rS.arr)[rS.off + x]? = some v := by
        have h2 : rS.off + ((⟨(y : Int), (x : Int)⟩ :
            Position).column).toNat = rS.off + x := by
          simp
        rw [h2] at hv
        exact hv
      by_cases hmem : ∃ xx ∈ xs, k = rT.off + p.column.toNat + xx
      · rw [if_pos hmem] at hbase
        rw [hbase, if_pos ?_]
        obtain ⟨xx, hxx1, hxx2⟩ := hmem
        exact ⟨xx, List.mem_cons_of_mem x hxx1, hxx2⟩
      · rw [if_neg hmem] at hbase
        by_cases hk : k = rT.off + p.column.toNat + x
        · rw [hbase, if_pos ⟨x, List.mem_cons_self x xs, hk⟩]
          have hkk : k - (rT.off + p.column.toNat) = x := by omega
          rw [hkk]
          rw [hstw, storeRead_storeWrite_self st1 rT.arr _ harrlt, hk]
          rw [List.getElem?_set_self (by rw [hlen]; omega)]
          exact hread.symm
        · rw [hbase, if_neg ?_, hstw,
            storeRead_storeWrite_self st1 rT.arr _ harrlt,
            List.getElem?_set_ne (fun h => hk h.symm)]
          rintro ⟨xx, hxx1, hxx2⟩
          rcases List.mem_cons.mp hxx1 with h | h
          · exact hk (by rw [hxx2, h])
          · exact hmem ⟨xx, h, hxx2⟩

/-- Effect of the outer (row) loop of `Update`: it succeeds, writes each
processed source row into the corresponding band of the corresponding target
row, and touches no other array. -/
theorem update_outer (st : Store T) (tgt src : Matrix2D T) (p : Position)
    (hwt : WF st tgt) (hws : WF st src) (hnd : DistinctRows tgt)
    (hdisj : ∀ r ∈ tgt.values, ∀ q ∈ src.values, r.arr ≠ q.arr)
    (hp0 : 0 ≤ p.row) (hp1 : 0 ≤ p.column)
    (hfit1 : p.column + src.shape.width ≤ tgt.shape.width)
    (hfit2 : p.row + src.shape.height ≤ tgt.shape.height)
    (ys : List Nat) (hys : ∀ yy ∈ ys, yy < src.shape.height.toNat)
    (hysnd : ys.Nodup) :
    ∀ st1, st1.length = st.length →
      (∀ a, (storeRead st1 a).length = (storeRead st a).length) →
      (∀ q ∈ src.values, storeRead st1 q.arr = storeRead st q.arr) →
    ∃ st2, loopIdx (fun y sty => loopIdx (updateBody tgt src p y)
        (List.range src.shape.width.toNat) sty) ys st1 = .ok st2 ∧
      st2.length = st1.length ∧
      (∀ a, (storeRead st2 a).length = (storeRead st1 a).length) ∧
      (∀ a, (∀ yy ∈ ys, ∀ rT2, tgt.values[p.row.toNat + yy]? = some rT2 →
          a ≠ rT2.arr) → storeRead st2 a = storeRead st1 a) ∧
      (∀ yy ∈ ys, ∀ rT2 rS2, tgt.values[p.row.toNat + yy]? = some rT2 →
        src.values[yy]? = some rS2 →
        ∀ k, (storeRead st2 rT2.arr)[k]? =
          if rT2.off + p.column.toNat ≤ k ∧
              k < rT2.off + p.column.toNat + src.shape.width.toNat then
            (storeRead st rS2.arr)[rS2.off + (k - (rT2.off + p.column.toNat))]?
          else (storeRead st1 rT2.arr)[k]?) := by
  induction ys with
  | nil =>
    intro st1 _ _ _
    exact ⟨st1, rfl, rfl, fun a => rfl, fun a _ => rfl,
      fun yy hyy => absurd hyy (by simp)⟩
  | cons y ys ih =>
    intro st1 hstlen hlen hsrc
    have hy : y < src.shape.height.toNat := hys y (List.mem_cons_self y ys)
    have htlen : tgt.values.length = tgt.shape.height.toNat := hwt.2.2.1
    have hslen : src.values.length = src.shape.height.toNat := hws.2.2.1
    have hth0 : 0 ≤ tgt.shape.height := hwt.2.1
    have hrTlt : p.row.toNat + y < tgt.values.length := by omega
    have hrSlt : y < src.values.length := by omega
    obtain ⟨rT, hrT⟩ : ∃ r, tgt.values[p.row.toNat + y]? = some r :=
      ⟨_, List.getElem?_eq_getElem hrTlt⟩
    obtain ⟨rS, hrS⟩ : ∃ r, src.values[y]? = some r :=
      ⟨_, List.getElem?_eq_getElem hrSlt⟩
    have hynotin : y ∉ ys := (List.nodup_cons.mp hysnd).1
    obtain ⟨st2', hloop1, hstlen1, hlen1, huntouched1, hrow1⟩ :=
      update_inner st tgt src p hwt hws hdisj hp0 hp1 hfit1 hfit2 y hy
        rT hrT rS hrS (List.range src.shape.width.toNat)
        (fun xx hxx => List.mem_range.mp hxx) st1 hstlen hlen hsrc
    have hsrc2 : ∀ q ∈ src.values, storeRead st2' q.arr = storeRead st q.arr := by
      intro q hq
      rw [huntouched1 q.arr
        (fun h => (hdisj rT (List.getElem?_mem hrT) q hq) h.symm), hsrc q hq]
    obtain ⟨st2, hloop2, hstlen2, hlen2, huntouched2, hrow2⟩ :=
      ih (fun yy hyy => hys yy (List.mem_cons_of_mem y hyy))
        (List.nodup_cons.mp hysnd).2 st2' (by omega)
        (fun a => by rw [hlen1 a, hlen a]) hsrc2
    refine ⟨st2, ?_, by omega, ?_, ?_, ?_⟩
    · simp only [loopIdx]
      rw [hloop1]
      exact hloop2
    · intro a
      rw [hlen2 a, hlen1 a]
    · intro a ha
      rw [huntouched2 a (fun yy hyy => ha yy (List.mem_cons_of_mem y hyy)),
        huntouched1 a (ha y (List.mem_cons_self y ys) rT hrT)]
    · intro yy hyy rT2 rS2 hrT2 hrS2 k
      rcases List.mem_cons.mp hyy with hcase | hcase
      · -- the row processed by this iteration
        subst hcase
        have hrT2eq : rT2 = rT := by
          rw [hrT] at hrT2
          exact (Option.some.inj hrT2).symm
        have hrS2eq : rS2 = rS := by
          rw [hrS] at hrS2
          exact (Option.some.inj hrS2).symm
        subst hrT2eq
        subst hrS2eq
        have hskip : storeRead st2 rT2.arr = storeRead st2' rT2.arr := by
          apply huntouched2
          intro yy' hyy' rT' hrT'
          exact distinctRows_arr_ne tgt hnd (p.row.toNat + yy)
            (p.row.toNat + yy') (by
              have : yy ≠ yy' := fun h => hynotin (h ▸ hyy')
              omega) rT2 rT' hrT2 hrT'
        rw [hskip]
        have hiff : (∃ xx ∈ List.range src.shape.width.toNat,
            k = rT2.off + p.column.toNat + xx) ↔
            (rT2.off + p.column.toNat ≤ k ∧
              k < rT2.off + p.column.toNat + src.shape.width.toNat) := by
          constructor
          · rintro ⟨xx, hxx, rfl⟩
            have := List.mem_range.mp hxx
            omega
          · rintro ⟨h1, h2⟩
            exact ⟨k - (rT2.off + p.column.toNat),
              List.mem_range.mpr (by omega), by omega⟩
        rw [hrow1 k, if_congr hiff rfl rfl]
      · -- a row processed by the remaining iterations
        have hne : rT2.arr ≠ rT.arr :=
          distinctRows_arr_ne tgt hnd (p.row.toNat + yy) (p.row.toNat + y)
            (by
              have : yy ≠ y := fun h => hynotin (h ▸ hcase)
              omega) rT2 rT hrT2 hrT
        rw [hrow2 yy hcase rT2 rS2 hrT2 hrS2 k, huntouched1 rT2.arr hne]

/-- Full characterization of a successful `Update` on well-formed matrices
whose storage is disjoint: it succeeds, leaves the source's arrays (and every
array length) unchanged, and afterwards every in-bounds target cell reads the
ORIGINAL source value when inside the pasted rectangle and its original value
otherwise. -/
theorem Update_ok_spec (st : Store T) (tgt src : Matrix2D T) (p : Position)
    (hwt : WF st tgt) (hws : WF st src) (hnd : DistinctRows tgt)
    (hdisj : ∀ r ∈ tgt.values, ∀ q ∈ src.values, r.arr ≠ q.arr)
    (hin : InBounds tgt p)
    (hfit1 : p.column + src.shape.width ≤ tgt.shape.width)
    (hfit2 : p.row + src.shape.height ≤ tgt.shape.height) :
    ∃ st2, Matrix2D.Update st tgt p src = .ok st2 ∧
      st2.length = st.length ∧
      (∀ a, (storeRead st2 a).length = (storeRead st a).length) ∧
      (∀ q ∈ src.values, storeRead st2 q.arr = storeRead st q.arr) ∧
      (∀ i j : Int, InBounds tgt ⟨i, j⟩ →
        Matrix2D.At st2 tgt ⟨i, j⟩ =
          if p.row ≤ i ∧ i < p.row + src.shape.height ∧ p.column ≤ j ∧
              j < p.column + src.shape.width then
            Matrix2D.At st src ⟨i - p.row, j - p.column⟩
          else Matrix2D.At st tgt ⟨i, j⟩) := by
  obtain ⟨hp0, hpr, hp1, hpc⟩ := hin
  obtain ⟨st2, hloop, hstlen, hlen, huntouched, hrow⟩ :=
    update_outer st tgt src p hwt hws hnd hdisj hp0 hp1 hfit1 hfit2
      (List.range src.shape.height.toNat)
      (fun yy hyy => List.mem_range.mp hyy) (List.nodup_range _)
      st rfl (fun a => rfl) (fun q _ => rfl)
  have htw0 : 0 ≤ tgt.shape.width := hwt.1
  have htlen : tgt.values.length = tgt.shape.height.toNat := hwt.2.2.1
  have hupd : Matrix2D.Update st tgt p src = .ok st2 := by
    unfold Matrix2D.Update
    rw [(oob_false_iff tgt p).mpr ⟨hp0, hpr, hp1, hpc⟩]
    simp only [Bool.false_eq_true, if_false]
    rw [if_neg (by omega)]
    exact hloop
  refine ⟨st2, hupd, hstlen, hlen, ?_, ?_⟩
  · intro q hq
    apply huntouched
    intro yy hyy rT2 hrT2
    exact fun h => (hdisj rT2 (List.getElem?_mem hrT2) q hq) h.symm
  · intro i j hij
    obtain ⟨hi0, hih, hj0, hjw⟩ := hij
    replace hi0 : 0 ≤ i := hi0
    replace hih : i < tgt.shape.height := hih
    replace hj0 : 0 ≤ j := hj0
    replace hjw : j < tgt.shape.width := hjw
    have hilt : i.toNat < tgt.values.length := by omega
    obtain ⟨rT, hrT⟩ : ∃ r, tgt.values[i.toNat]? = some r :=
      ⟨_, List.getElem?_eq_getElem hilt⟩
    obtain ⟨hTl, hTc, hTb⟩ := hwt.2.2.2 rT (List.getElem?_mem hrT)
    by_cases hreg : p.row ≤ i ∧ i < p.row + src.shape.height ∧
        p.column ≤ j ∧ j < p.column + src.shape.width
    · rw [if_pos hreg]
      obtain ⟨hr1, hr2, hr3, hr4⟩ := hreg
      obtain ⟨hsw0, hsh0, hslen2, hsrows⟩ := hws
      have hsin : InBounds src ⟨i - p.row, j - p.column⟩ :=
        ⟨show (0 : Int) ≤ i - p.row by omega,
         show i - p.row < src.shape.height by omega,
         show (0 : Int) ≤ j - p.column by omega,
         show j - p.column < src.shape.width by omega⟩
      obtain ⟨rS, v, hrS, hv, hat⟩ := At_ok_spec st src ⟨i - p.row, j - p.column⟩
        ⟨hsw0, hsh0, hslen2, hsrows⟩ hsin
      rw [hat]
      have hyy : (i - p.row).toNat < src.shape.height.toNat := by omega
      have hrTidx : tgt.values[p.row.toNat + (i - p.row).toNat]? = some rT := by
        have hidx : p.row.toNat + (i - p.row).toNat = i.toNat := by omega
        rw [hidx]
        exact hrT
      have hrSidx : src.values[(i - p.row).toNat]? = some rS := hrS
      have hdesc := hrow ((i - p.row).toNat) (List.mem_range.mpr hyy)
        rT rS hrTidx hrSidx (rT.off + j.toNat)
      rw [if_pos (by omega)] at hdesc
      have hidx2 : rS.off + (rT.off + j.toNat - (rT.off + p.column.toNat)) =
          rS.off + ((⟨i - p.row, j - p.column⟩ : Position).column).toNat := by
        show rS.off + (rT.off + j.toNat - (rT.off + p.column.toNat)) =
          rS.off + (j - p.column).toNat
        omega
      rw [hidx2, hv] at hdesc
      exact At_eval st2 tgt ⟨i, j⟩ rT v ⟨hi0, hih, hj0, hjw⟩ hrT
        (show j < (rT.len : Int) by omega) hdesc
    · rw [if_neg hreg]
      apply At_congr_cell
      intro r hr
      have hreq : r = rT := by
        rw [hrT] at hr
        exact (Option.some.inj hr).symm
      subst hreq
      by_cases hirow : p.row ≤ i ∧ i < p.row + src.shape.height
      · -- inside the row band but outside the column band
        have hyy2 : (i - p.row).toNat < src.shape.height.toNat := by omega
        have hrTidx : tgt.values[p.row.toNat + (i - p.row).toNat]? = some r := by
          have hidx : p.row.toNat + (i - p.row).toNat = i.toNat := by omega
          rw [hidx]
          exact hrT
        have hslen2 : src.values.length = src.shape.height.toNat := hws.2.2.1
        obtain ⟨rS, hrS⟩ : ∃ r2, src.values[(i - p.row).toNat]? = some r2 :=
          ⟨_, List.getElem?_eq_getElem (by omega)⟩
        have hdesc := hrow ((i - p.row).toNat) (List.mem_range.mpr hyy2)
          r rS hrTidx hrS (r.off + j.toNat)
        rw [if_neg (by omega)] at hdesc
        exact hdesc
      · -- outside the row band: the row's array is untouched
        rw [huntouched r.arr ?_]
        intro yy hyy rT2 hrT2
        exact distinctRows_arr_ne tgt hnd i.toNat (p.row.toNat + yy)
          (by
            have := List.mem_range.mp hyy
            omega) r rT2 hrT hrT2

/-! ## WithData characterization -/

/-- Effect of `WithData`'s inner (column) loop over one supplied row, on a
freshly allocated matrix row (offset 0, `cap = len = width`, array `A`): if
it succeeds, every supplied element landed at its index and nothing else
changed; its success also forces every written index below the width. -/
theorem withData_inner (m : Matrix2D T) (y : Nat) (A : Nat)
    (hy : (y : Int) < m.shape.height) (hw0 : 0 ≤ m.shape.width)
    (hrow : m.values[y]? =
      some ⟨A, 0, m.shape.width.toNat, m.shape.width.toNat⟩) :
    ∀ (row : List T) (x0 : Nat) (st1 st2 : Store T),
    m.shape.width.toNat ≤ (storeRead st1 A).length →
    loopVals (withDataBody m y) x0 row st1 = .ok st2 →
    (∀ x, x < row.length → x0 + x < m.shape.width.toNat) ∧
    (∀ a, (storeRead st2 a).length = (storeRead st1 a).length) ∧
    (∀ a, a ≠ A → storeRead st2 a = storeRead st1 a) ∧
    (∀ k, (storeRead st2 A)[k]? =
      if x0 ≤ k ∧ k < x0 + row.length then row[k - x0]?
      else (storeRead st1 A)[k]?) := by
  intro row
  induction row with
  | nil =>
    intro x0 st1 st2 hbig h
    unfold loopVals at h
    cases h
    refine ⟨fun x hx => absurd hx (by simp), fun a => rfl, fun a _ => rfl, ?_⟩
    intro k
    rw [if_neg (by simp only [List.length_nil]; omega)]
  | cons v rest ih =>
    intro x0 st1 st2 hbig h
    unfold loopVals at h
    by_cases hx0 : (x0 : Int) < m.shape.width
    · -- the Set succeeds and writes index x0 of array A
      have hin : InBounds m ⟨(y : Int), (x0 : Int)⟩ :=
        ⟨show (0 : Int) ≤ (y : Int) by omega, hy,
         show (0 : Int) ≤ (x0 : Int) by omega, hx0⟩
      have hset := Set_eval st1 m ⟨(y : Int), (x0 : Int)⟩
        ⟨A, 0, m.shape.width.toNat, m.shape.width.toNat⟩ v hin hrow
        (show (x0 : Int) < ((m.shape.width.toNat : Nat) : Int) by omega)
      have hbody : withDataBody m y x0 v st1 =
          .ok (storeWrite st1 A ((storeRead st1 A).set x0 v)) := by
        unfold withDataBody
        rw [hset]
        have hidx : (0 : Nat) + ((x0 : Int)).toNat = x0 := by omega
        rw [hidx]
      rw [hbody] at h
      dsimp only at h
      obtain ⟨hfits, hlen2, huntouched, hdesc⟩ := ih (x0 + 1)
        (storeWrite st1 A ((storeRead st1 A).set x0 v)) st2
        (by
          rw [storeRead_length_storeWrite st1 A A _ (by simp)]
          exact hbig) h
      have hAlt : A < st1.length := by
        by_contra hge
        have hnone : st1[A]? = none := List.getElem?_eq_none (by omega)
        have hempty : storeRead st1 A = [] := by
          rw [storeRead, List.getD_eq_getElem?_getD, hnone]
          rfl
        rw [hempty] at hbig
        simp at hbig
        omega
      refine ⟨?_, ?_, ?_, ?_⟩
      · intro x hx
        match x with
        | 0 => omega
        | Nat.succ x' =>
          have := hfits x' (by simpa using hx)
          omega
      · intro a
        rw [hlen2 a, storeRead_length_storeWrite st1 a A _ (by simp)]
      · intro a ha
        rw [huntouched a ha,
          storeRead_storeWrite_ne st1 a A _ (fun h2 => ha h2.symm)]
      · intro k
        rw [hdesc k]
        by_cases hk1 : x0 + 1 ≤ k ∧ k < x0 + 1 + rest.length
        · rw [if_pos hk1, if_pos (by simp only [List.length_cons]; omega)]
          have hkk : k - x0 = (k - (x0 + 1)) + 1 := by omega
          rw [hkk, List.getElem?_cons_succ]
        · rw [if_neg hk1]
          rw [storeRead_storeWrite_self st1 A _ hAlt]
          by_cases hk2 : k = x0
          · subst hk2
            rw [if_pos (by simp only [List.length_cons]; omega),
              List.getElem?_set_self (by omega)]
            simp
          · rw [List.getElem?_set_ne (fun h2 => hk2 h2.symm),
              if_neg (by simp only [List.length_cons]; omega)]
    · -- the Set fails with OutOfBounds, so the loop cannot succeed
      have hb : isPositionOutOfBounds m ⟨(y : Int), (x0 : Int)⟩ = true :=
        (oob_true_iff m ⟨(y : Int), (x0 : Int)⟩).mpr
          (Or.inr (Or.inr (Or.inr (show m.shape.width ≤ (x0 : Int) by omega))))
      have hbody : withDataBody m y x0 v st1 =
          .err "out of bound position" := by
        unfold withDataBody
        rw [Set_err_of_oob st1 m _ v hb]
      rw [hbody] at h
      exact GoResult.noConfusion h

/-- Effect of `WithData`'s outer (row) loop on a freshly allocated matrix
whose row `i` is the slice `⟨base + i, 0, w, w⟩`: if it succeeds, each
supplied row landed in its array (with every index below the width) and no
other array changed. -/
theorem withData_outer (m : Matrix2D T) (base : Nat)
    (hw0 : 0 ≤ m.shape.width) (hh0 : 0 ≤ m.shape.height)
    (hfresh : ∀ i, i < m.values.length → m.values[i]? =
      some ⟨base + i, 0, m.shape.width.toNat, m.shape.width.toNat⟩)
    (hvh : m.values.length = m.shape.height.toNat) :
    ∀ (rows : List (List T)) (y0 : Nat) (st1 st2 : Store T),
    y0 + rows.length ≤ m.values.length →
    (∀ i, i < m.values.length →
      m.shape.width.toNat ≤ (storeRead st1 (base + i)).length) →
    loopVals (fun yRow row sty => loopVals (withDataBody m yRow) 0 row sty)
      y0 rows st1 = .ok st2 →
    (∀ a, (storeRead st2 a).length = (storeRead st1 a).length) ∧
    (∀ a, (∀ i, i < rows.length → a ≠ base + (y0 + i)) →
      storeRead st2 a = storeRead st1 a) ∧
    (∀ i (hi : i < rows.length),
      (∀ x, x < rows[i].length → x < m.shape.width.toNat) ∧
      (∀ k, (storeRead st2 (base + (y0 + i)))[k]? =
        if k < rows[i].length then rows[i][k]?
        else (storeRead st1 (base + (y0 + i)))[k]?)) := by
  intro rows
  induction rows with
  | nil =>
    intro y0 st1 st2 _ _ h
    unfold loopVals at h
    cases h
    exact ⟨fun a => rfl, fun a _ => rfl, fun i hi => absurd hi (by simp)⟩
  | cons row rest ih =>
    intro y0 st1 st2 hbound hbig h
    unfold loopVals at h
    have hy0lt : y0 < m.values.length := by
      simp only [List.length_cons] at hbound
      omega
    have hy : (y0 : Int) < m.shape.height := by omega
    have hrow0 := hfresh y0 hy0lt
    cases hinner : loopVals (withDataBody m y0) 0 row st1 with
    | ok stw =>
      rw [hinner] at h
      dsimp only at h
      obtain ⟨hfits1, hlen1, hunt1, hdesc1⟩ := withData_inner m y0 (base + y0)
        hy hw0 hrow0 row 0 st1 stw (hbig y0 hy0lt) hinner
      obtain ⟨hlen2, hunt2, hdesc2⟩ := ih (y0 + 1) stw st2
        (by simp only [List.length_cons] at hbound; omega)
        (fun i hilt => by rw [hlen1]; exact hbig i hilt) h
      refine ⟨?_, ?_, ?_⟩
      · intro a
        rw [hlen2 a, hlen1 a]
      · intro a ha
        rw [hunt2 a (fun i hi => by
            have h2 := ha (i + 1) (by simp only [List.length_cons]; omega)
            have h3 : base + (y0 + (i + 1)) = base + (y0 + 1 + i) := by omega
            rw [h3] at h2
            exact h2),
          hunt1 a (by
            have h0 := ha 0 (by simp only [List.length_cons]; omega)
            simpa using h0)]
      · intro i hi
        match i with
        | 0 =>
          refine ⟨?_, ?_⟩
          · intro x hx
            have := hfits1 x (by simpa using hx)
            omega
          · intro k
            have hstep : storeRead st2 (base + (y0 + 0)) =
                storeRead stw (base + (y0 + 0)) :=
              hunt2 _ (fun i2 _ => by omega)
            rw [hstep]
            have hk := hdesc1 k
            simp only [Nat.add_zero] at hk ⊢
            rw [hk]
            by_cases hkk : k < row.length
            · rw [if_pos (by omega), if_pos (by simpa using hkk)]
              simp
            · rw [if_neg (by omega), if_neg (by simpa using hkk)]
        | Nat.succ i2 =>
          obtain ⟨ha, hb⟩ := hdesc2 i2 (by simpa using hi)
          refine ⟨?_, ?_⟩
          · intro x hx
            apply ha x
            simpa using hx
          · intro k
            have hidx : base + (y0 + (i2 + 1)) = base + (y0 + 1 + i2) := by
              omega
            have hk := hb k
            have hstep : storeRead stw (base + (y0 + 1 + i2)) =
                storeRead st1 (base + (y0 + 1 + i2)) :=
              hunt1 _ (by omega)
            rw [hstep] at hk
            rw [hidx, hk]
            simp
    | err e =>
      rw [hinner] at h
      exact GoResult.noConfusion h
    | panic =>
      rw [hinner] at h
      exact GoResult.noConfusion h

/-- `New2D` with a single option and a nonnegative shape just runs the
option on the freshly allocated store and matrix. -/
theorem New2D_single_opt [Zero T] (st : Store T) (shape : Shape)
    (o : Matrix2DOpts T) (hw : 0 ≤ shape.width) (hh : 0 ≤ shape.height) :
    New2D st shape (o :: []) =
      match o (st ++ List.replicate shape.height.toNat
          (List.replicate shape.width.toNat (0 : T)))
        (freshMatrix st.length shape) with
      | .ok st2 => .ok (st2, freshMatrix st.length shape)
      | .err e => .err e
      | .panic => .panic := by
  unfold New2D
  rw [if_neg (by omega), if_neg (by omega)]
  cases ho : o (st ++ List.replicate shape.height.toNat
      (List.replicate shape.width.toNat (0 : T)))
    (freshMatrix st.length shape) with
  | ok st2 => simp only [applyOpts, ho]
  | err e => simp only [applyOpts, ho]
  | panic => simp only [applyOpts, ho]

/-! ## Claim C5 (WithData validation and copy) -/

/-- Counterexample to C5 as stated: with shape 2×2 and supplied rows
`[[1,2],[3]]`, the second row's length (1) differs from the width (2), yet
construction succeeds — only the first row's length is validated — and the
missing cell `(1,1)` is silently left at zero. -/
theorem claim_C5_counterexample :
    New2D ([] : Store Int) ⟨2, 2⟩ (WithData (some [[1, 2], [3]]) :: []) =
      .ok ([[1, 2], [3, 0]], ⟨[⟨0, 0, 2, 2⟩, ⟨1, 0, 2, 2⟩], ⟨2, 2⟩⟩) := by
  decide

/-- C5 amended: constructing with the `WithData` policy fails with
`ShapeMismatch` whenever the supplied rows are nil or empty, the number of
rows differs from `shape.height`, or the FIRST row's length differs from
`shape.width` (only the first row is length-validated — a shorter later row
is accepted, as the counterexample shows, and a longer later row fails
through `Set`'s out-of-bounds error); on success every supplied element is
copied into the corresponding cell. -/
theorem claim_C5_amended [Zero T] (st : Store T) (shape : Shape)
    (data : Option (List (List T)))
    (hw : 0 ≤ shape.width) (hh : 0 ≤ shape.height) :
    (data = none → ∃ e, New2D st shape (WithData data :: []) = .err e) ∧
    (∀ rows, data = some rows →
      (rows.length = 0 ∨ (rows.length : Int) ≠ shape.height ∨
        ((rows.headD []).length : Int) ≠ shape.width) →
      ∃ e, New2D st shape (WithData data :: []) = .err e) ∧
    (∀ rows st2 m, data = some rows →
      New2D st shape (WithData data :: []) = .ok (st2, m) →
      ∀ y (hy : y < rows.length) x (hx : x < rows[y].length),
        Matrix2D.At st2 m ⟨(y : Int), (x : Int)⟩ = .ok rows[y][x]) := by
  have hkey := New2D_single_opt st shape (WithData data) hw hh
  refine ⟨?_, ?_, ?_⟩
  · intro hnone
    subst hnone
    rw [hkey]
    exact ⟨_, rfl⟩
  · intro rows hdata hbad
    subst hdata
    rw [hkey]
    have hwd : ∃ e, WithData (some rows)
        (st ++ List.replicate shape.height.toNat
          (List.replicate shape.width.toNat (0 : T)))
        (freshMatrix st.length shape) = .err e := by
      unfold WithData
      dsimp only
      rcases hbad with h0 | h0 | h0
      · rw [if_pos h0]
        exact ⟨_, rfl⟩
      · by_cases h1 : rows.length = 0
        · rw [if_pos h1]
          exact ⟨_, rfl⟩
        · rw [if_neg h1, if_pos (show (rows.length : Int) ≠
            (freshMatrix st.length shape : Matrix2D T).shape.height from h0)]
          exact ⟨_, rfl⟩
      · by_cases h1 : rows.length = 0
        · rw [if_pos h1]
          exact ⟨_, rfl⟩
        · by_cases h2 : (rows.length : Int) =
              (freshMatrix st.length shape : Matrix2D T).shape.height
          · rw [if_neg h1, if_neg (fun hcon => hcon h2),
              if_pos (show ((rows.headD []).length : Int) ≠
                (freshMatrix st.length shape : Matrix2D T).shape.width from h0)]
            exact ⟨_, rfl⟩
          · rw [if_neg h1, if_pos h2]
            exact ⟨_, rfl⟩
    obtain ⟨e, he⟩ := hwd
    rw [he]
    exact ⟨e, rfl⟩
  · intro rows st2 m hdata hok y hy x hx
    subst hdata
    rw [hkey] at hok
    cases hwd : WithData (some rows)
        (st ++ List.replicate shape.height.toNat
          (List.replicate shape.width.toNat (0 : T)))
        (freshMatrix st.length shape) with
    | ok stx =>
      rw [hwd] at hok
      dsimp only at hok
      have hpair := GoResult.ok.inj hok
      have hst2 : stx = st2 := congrArg Prod.fst hpair
      have hm : (freshMatrix st.length shape : Matrix2D T) = m :=
        congrArg Prod.snd hpair
      rw [hst2] at hwd
      subst hm
      -- unpack WithData's checks
      unfold WithData at hwd
      dsimp only at hwd
      by_cases h1 : rows.length = 0
      · rw [if_pos h1] at hwd
        exact GoResult.noConfusion hwd
      · rw [if_neg h1] at hwd
        by_cases h2 : (rows.length : Int) =
            (freshMatrix st.length shape : Matrix2D T).shape.height
        · rw [if_neg (fun hcon => hcon h2)] at hwd
          by_cases h3 : ((rows.headD []).length : Int) =
              (freshMatrix st.length shape : Matrix2D T).shape.width
          · rw [if_neg (fun hcon => hcon h3)] at hwd
            replace h2 : (rows.length : Int) = shape.height := h2
            -- the copy loop succeeded: apply the outer characterization
            have hfresh : ∀ i,
                i < (freshMatrix st.length shape : Matrix2D T).values.length →
                (freshMatrix st.length shape : Matrix2D T).values[i]? =
                  some ⟨st.length + i, 0, shape.width.toNat,
                    shape.width.toNat⟩ := by
              intro i hi
              unfold freshMatrix at hi ⊢
              simp only [List.length_map, List.length_range] at hi
              simp [List.getElem?_map, List.getElem?_range, hi]
            have hvlen :
                (freshMatrix st.length shape : Matrix2D T).values.length =
                  shape.height.toNat := by
              unfold freshMatrix
              simp
            have hbig : ∀ i,
                i < (freshMatrix st.length shape : Matrix2D T).values.length →
                shape.width.toNat ≤ (storeRead
                  (st ++ List.replicate shape.height.toNat
                    (List.replicate shape.width.toNat (0 : T)))
                  (st.length + i)).length := by
              intro i hi
              rw [hvlen] at hi
              have hrep : storeRead (st ++ List.replicate shape.height.toNat
                  (List.replicate shape.width.toNat (0 : T)))
                  (st.length + i) =
                  List.replicate shape.width.toNat (0 : T) := by
                rw [storeRead, List.getD_eq_getElem?_getD,
                  List.getElem?_append_right (by omega)]
                simp [hi]
              rw [hrep]
              simp
            obtain ⟨hlenf, huntf, hdescf⟩ := withData_outer
              (freshMatrix st.length shape) st.length hw hh hfresh hvlen
              rows 0 _ st2 (by omega) hbig hwd
            obtain ⟨hfits, hdesc⟩ := hdescf y hy
            have hyh : (y : Int) < shape.height := by omega
            have hfx : x < shape.width.toNat := hfits x hx
            have hxw : (x : Int) < shape.width := by omega
            have hrowy :
                (freshMatrix st.length shape : Matrix2D T).values[y]? =
                some ⟨st.length + y, 0, shape.width.toNat,
                  shape.width.toNat⟩ :=
              hfresh y (by omega)
            apply At_eval st2 (freshMatrix st.length shape)
              ⟨(y : Int), (x : Int)⟩
              ⟨st.length + y, 0, shape.width.toNat, shape.width.toNat⟩
              rows[y][x]
              ⟨show (0 : Int) ≤ (y : Int) by omega, hyh,
               show (0 : Int) ≤ (x : Int) by omega, hxw⟩
              hrowy
              (show (x : Int) < ((shape.width.toNat : Nat) : Int) by omega)
            show (storeRead st2 (st.length + y))[0 + x]? = some rows[y][x]
            have hk := hdesc x
            have hidx0 : st.length + (0 + y) = st.length + y := by omega
            rw [hidx0] at hk
            have h0x : (0 : Nat) + x = x := by omega
            rw [h0x, hk, if_pos hx]
            exact List.getElem?_eq_getElem hx
          · rw [if_pos h3] at hwd
            exact GoResult.noConfusion hwd
        · rw [if_pos h2] at hwd
          exact GoResult.noConfusion hwd
    | err e =>
      rw [hwd] at hok
      exact GoResult.noConfusion hok
    | panic =>
      rw [hwd] at hok
      exact GoResult.noConfusion hok

/-- Witness for the amended C5: shape 2×2 with well-formed data
`[[1,2],[3,4]]`. -/
theorem claim_C5_amended_witness :
    ((0 : Int) ≤ 2 ∧ (0 : Int) ≤ 2) ∧
    ((some [[1, 2], [3, 4]] = (none : Option (List (List Int))) →
      ∃ e, New2D ([] : Store Int) ⟨2, 2⟩
        (WithData (some [[1, 2], [3, 4]]) :: []) = .err e) ∧
    (∀ rows : List (List Int), some [[1, 2], [3, 4]] = some rows →
      (rows.length = 0 ∨ (rows.length : Int) ≠ (2 : Int) ∨
        ((rows.headD []).length : Int) ≠ (2 : Int)) →
      ∃ e, New2D ([] : Store Int) ⟨2, 2⟩
        (WithData (some [[1, 2], [3, 4]]) :: []) = .err e) ∧
    (∀ rows st2 m, some [[1, 2], [3, 4]] = some rows →
      New2D ([] : Store Int) ⟨2, 2⟩
        (WithData (some [[1, 2], [3, 4]]) :: []) = .ok (st2, m) →
      ∀ y (hy : y < rows.length) x (hx : x < rows[y].length),
        Matrix2D.At st2 m ⟨(y : Int), (x : Int)⟩ = .ok rows[y][x])) :=
  ⟨⟨by decide, by decide⟩,
    claim_C5_amended ([] : Store Int) ⟨2, 2⟩ (some [[1, 2], [3, 4]])
      (by decide) (by decide)⟩

/-! ## Claims C4 and C8 -/

def zero55Store : Store Int :=
  [[0, 0, 0, 0, 0], [0, 0, 0, 0, 0], [0, 0, 0, 0, 0], [0, 0, 0, 0, 0],
    [0, 0, 0, 0, 0]]

def mat55 : Matrix2D Int :=
  ⟨[⟨0, 0, 5, 5⟩, ⟨1, 0, 5, 5⟩, ⟨2, 0, 5, 5⟩, ⟨3, 0, 5, 5⟩, ⟨4, 0, 5, 5⟩],
    ⟨5, 5⟩⟩

/-- Store after also allocating the 3-wide, 2-high all-ones source. -/
def pasteStore : Store Int :=
  [[0, 0, 0, 0, 0], [0, 0, 0, 0, 0], [0, 0, 0, 0, 0], [0, 0, 0, 0, 0],
    [0, 0, 0, 0, 0], [1, 1, 1], [1, 1, 1]]

def mat32 : Matrix2D Int := ⟨[⟨5, 0, 3, 3⟩, ⟨6, 0, 3, 3⟩], ⟨3, 2⟩⟩

def pasteAfter : Store Int :=
  [[0, 0, 0, 0, 0], [0, 0, 0, 0, 0], [0, 1, 1, 1, 0], [0, 1, 1, 1, 0],
    [0, 0, 0, 0, 0], [1, 1, 1], [1, 1, 1]]

/-- Target of the C4 aliasing counterexample: `[[5,7,0],[0,0,0]]`. -/
def cx4Store : Store Int := [[5, 7, 0], [0, 0, 0]]

def matC4 : Matrix2D Int := ⟨[⟨0, 0, 3, 3⟩, ⟨1, 0, 3, 3⟩], ⟨3, 2⟩⟩

/-- The slice of `matC4` over columns `[0,1]`, rows `[0,1]` — an aliased
source. -/
def srcC4 : Matrix2D Int := ⟨[⟨0, 0, 2, 3⟩, ⟨1, 0, 2, 3⟩], ⟨2, 2⟩⟩

def cx4After : Store Int := [[5, 5, 5], [0, 0, 0]]

/-- Counterexample to C4 as stated: when the source aliases the target (here
it is a slice of it), `Update` does not copy every element of the source —
the copy loop re-reads the source after partially overwriting it.  The source
cell `(0,1)` holds 7 before the update, the paste lands at column offset 1,
yet the target cell `(0,2)` ends up 5, not 7. -/
theorem claim_C4_counterexample :
    New2D ([] : Store Int) ⟨3, 2⟩
      (WithData (some [[5, 7, 0], [0, 0, 0]]) :: []) = .ok (cx4Store, matC4) ∧
    Matrix2D.Slice matC4 ⟨0, 1⟩ ⟨0, 1⟩ = .ok srcC4 ∧
    Matrix2D.At cx4Store srcC4 ⟨0, 1⟩ = .ok 7 ∧
    Matrix2D.Update cx4Store matC4 ⟨0, 1⟩ srcC4 = .ok cx4After ∧
    Matrix2D.At cx4After matC4 ⟨0, 2⟩ = .ok 5 := by decide

/-- C4 amended: `Update(target, at, source)` fails with `OutOfBounds` when
`at` is outside the target's shape, or when the paste would overrun the
target (touching the far edge is allowed, one past it is not); on success —
PROVIDED the source's storage is disjoint from the target's (the aliased case
is refuted by the counterexample) — it copies every element of the source
into the target at the offset `at`, leaves every target cell outside the
pasted rectangle unchanged, and never changes the target's shape (in this
embedding `Update` returns only a store, the matrix value with its shape is
untouched).  The spec's concrete 5×5 paste scenario is reproduced exactly. -/
theorem claim_C4_amended (st : Store T) (tgt src : Matrix2D T) (p : Position)
    (hwt : WF st tgt) (hws : WF st src) (hnd : DistinctRows tgt)
    (hdisj : ∀ r ∈ tgt.values, ∀ q ∈ src.values, r.arr ≠ q.arr) :
    (¬ InBounds tgt p → ∃ e, Matrix2D.Update st tgt p src = .err e) ∧
    ((p.column + src.shape.width > tgt.shape.width ∨
        p.row + src.shape.height > tgt.shape.height) →
      ∃ e, Matrix2D.Update st tgt p src = .err e) ∧
    (InBounds tgt p →
      p.column + src.shape.width ≤ tgt.shape.width →
      p.row + src.shape.height ≤ tgt.shape.height →
      ∃ st2, Matrix2D.Update st tgt p src = .ok st2 ∧
        (∀ i j : Int, p.row ≤ i → i < p.row + src.shape.height →
          p.column ≤ j → j < p.column + src.shape.width →
          Matrix2D.At st2 tgt ⟨i, j⟩ =
            Matrix2D.At st src ⟨i - p.row, j - p.column⟩) ∧
        (∀ i j : Int, InBounds tgt ⟨i, j⟩ →
          ¬ (p.row ≤ i ∧ i < p.row + src.shape.height ∧ p.column ≤ j ∧
            j < p.column + src.shape.width) →
          Matrix2D.At st2 tgt ⟨i, j⟩ = Matrix2D.At st tgt ⟨i, j⟩)) ∧
    (Matrix2D.Update pasteStore mat55 ⟨2, 1⟩ mat32 = .ok pasteAfter ∧
      valuesOf pasteAfter mat55 =
        [[0, 0, 0, 0, 0], [0, 0, 0, 0, 0], [0, 1, 1, 1, 0], [0, 1, 1, 1, 0],
          [0, 0, 0, 0, 0]]) := by
  refine ⟨?_, ?_, ?_, by decide⟩
  · intro hni
    have hb : isPositionOutOfBounds tgt p = true := by
      cases hb2 : isPositionOutOfBounds tgt p with
      | true => rfl
      | false => exact absurd ((oob_false_iff tgt p).mp hb2) hni
    unfold Matrix2D.Update
    rw [hb]
    exact ⟨_, rfl⟩
  · intro hover
    by_cases hb : isPositionOutOfBounds tgt p
    · unfold Matrix2D.Update
      rw [hb]
      exact ⟨_, rfl⟩
    · unfold Matrix2D.Update
      rw [Bool.not_eq_true] at hb
      rw [hb]
      simp only [Bool.false_eq_true, if_false]
      rw [if_pos hover]
      exact ⟨_, rfl⟩
  · intro hin hfit1 hfit2
    obtain ⟨st2, hupd, _, _, _, hdesc⟩ :=
      Update_ok_spec st tgt src p hwt hws hnd hdisj hin hfit1 hfit2
    obtain ⟨hp0, hpr, hp1, hpc⟩ := hin
    refine ⟨st2, hupd, ?_, ?_⟩
    · intro i j h1 h2 h3 h4
      have hij : InBounds tgt ⟨i, j⟩ :=
        ⟨show (0 : Int) ≤ i by omega, show i < tgt.shape.height by omega,
         show (0 : Int) ≤ j by omega, show j < tgt.shape.width by omega⟩
      rw [hdesc i j hij, if_pos ⟨h1, h2, h3, h4⟩]
    · intro i j hij hout
      rw [hdesc i j hij, if_neg hout]

/-- Witness for the amended C4 at the spec's 5×5 paste scenario. -/
theorem claim_C4_amended_witness :
    (WF pasteStore mat55 ∧ WF pasteStore mat32 ∧ DistinctRows mat55 ∧
      (∀ r ∈ mat55.values, ∀ q ∈ mat32.values, r.arr ≠ q.arr)) ∧
    ((¬ InBounds mat55 ⟨2, 1⟩ →
        ∃ e, Matrix2D.Update pasteStore mat55 ⟨2, 1⟩ mat32 = .err e) ∧
      (((1 : Int) + mat32.shape.width > mat55.shape.width ∨
          (2 : Int) + mat32.shape.height > mat55.shape.height) →
        ∃ e, Matrix2D.Update pasteStore mat55 ⟨2, 1⟩ mat32 = .err e) ∧
      (InBounds mat55 ⟨2, 1⟩ →
        (1 : Int) + mat32.shape.width ≤ mat55.shape.width →
        (2 : Int) + mat32.shape.height ≤ mat55.shape.height →
        ∃ st2, Matrix2D.Update pasteStore mat55 ⟨2, 1⟩ mat32 = .ok st2 ∧
          (∀ i j : Int, (2 : Int) ≤ i → i < 2 + mat32.shape.height →
            (1 : Int) ≤ j → j < 1 + mat32.shape.width →
            Matrix2D.At st2 mat55 ⟨i, j⟩ =
              Matrix2D.At pasteStore mat32 ⟨i - 2, j - 1⟩) ∧
          (∀ i j : Int, InBounds mat55 ⟨i, j⟩ →
            ¬ ((2 : Int) ≤ i ∧ i < 2 + mat32.shape.height ∧ (1 : Int) ≤ j ∧
              j < 1 + mat32.shape.width) →
            Matrix2D.At st2 mat55 ⟨i, j⟩ =
              Matrix2D.At pasteStore mat55 ⟨i, j⟩)) ∧
      (Matrix2D.Update pasteStore mat55 ⟨2, 1⟩ mat32 = .ok pasteAfter ∧
        valuesOf pasteAfter mat55 =
          [[0, 0, 0, 0, 0], [0, 0, 0, 0, 0], [0, 1, 1, 1, 0],
            [0, 1, 1, 1, 0], [0, 0, 0, 0, 0]])) :=
  ⟨⟨by decide, by decide, by decide, by decide⟩,
    claim_C4_amended pasteStore mat55 mat32 ⟨2, 1⟩
      (by decide) (by decide) (by decide) (by decide)⟩

/-- Target of the C8 idempotence counterexample: `[[1,2,3],[0,0,0]]`. -/
def cx8Store : Store Int := [[1, 2, 3], [0, 0, 0]]

def matC8 : Matrix2D Int := ⟨[⟨0, 0, 3, 3⟩, ⟨1, 0, 3, 3⟩], ⟨3, 2⟩⟩

/-- The slice of `matC8` over columns `[1,2]`, rows `[0,1]`. -/
def srcC8 : Matrix2D Int := ⟨[⟨0, 1, 2, 2⟩, ⟨1, 1, 2, 2⟩], ⟨2, 2⟩⟩

def cx8Once : Store Int := [[2, 3, 3], [0, 0, 0]]

def cx8Twice : Store Int := [[3, 3, 3], [0, 0, 0]]

/-- Counterexample to C8 as stated: with a source that aliases the target
(a slice of it, shifted), the same successful `Update` applied twice yields
different target contents than applying it once — `[[2,3,3],...]` after one
application, `[[3,3,3],...]` after two. -/
theorem claim_C8_counterexample :
    New2D ([] : Store Int) ⟨3, 2⟩
      (WithData (some [[1, 2, 3], [0, 0, 0]]) :: []) = .ok (cx8Store, matC8) ∧
    Matrix2D.Slice matC8 ⟨1, 2⟩ ⟨0, 1⟩ = .ok srcC8 ∧
    Matrix2D.Update cx8Store matC8 ⟨0, 0⟩ srcC8 = .ok cx8Once ∧
    Matrix2D.Update cx8Once matC8 ⟨0, 0⟩ srcC8 = .ok cx8Twice ∧
    valuesOf cx8Once matC8 = [[2, 3, 3], [0, 0, 0]] ∧
    valuesOf cx8Twice matC8 = [[3, 3, 3], [0, 0, 0]] ∧
    Matrix2D.At cx8Twice matC8 ⟨0, 0⟩ ≠ Matrix2D.At cx8Once matC8 ⟨0, 0⟩ := by
  decide

/-- C8 amended: `Update` is idempotent PROVIDED the source's storage is
disjoint from the target's (the aliased case is refuted by the
counterexample): for every well-formed target, position, and disjoint
well-formed source for which the update succeeds, applying it a second time
succeeds and leaves every in-bounds target cell reading the same value as
after the first application. -/
theorem claim_C8_amended (st : Store T) (tgt src : Matrix2D T) (p : Position)
    (hwt : WF st tgt) (hws : WF st src) (hnd : DistinctRows tgt)
    (hdisj : ∀ r ∈ tgt.values, ∀ q ∈ src.values, r.arr ≠ q.arr)
    (hin : InBounds tgt p)
    (hfit1 : p.column + src.shape.width ≤ tgt.shape.width)
    (hfit2 : p.row + src.shape.height ≤ tgt.shape.height) :
    ∃ st1 st2, Matrix2D.Update st tgt p src = .ok st1 ∧
      Matrix2D.Update st1 tgt p src = .ok st2 ∧
      ∀ q, InBounds tgt q →
        Matrix2D.At st2 tgt q = Matrix2D.At st1 tgt q := by
  obtain ⟨st1, hu1, hstlen1, hlen1, hsrc1, hdesc1⟩ :=
    Update_ok_spec st tgt src p hwt hws hnd hdisj hin hfit1 hfit2
  have hwt1 : WF st1 tgt := WF_congr st st1 tgt hlen1 hwt
  have hws1 : WF st1 src := WF_congr st st1 src hlen1 hws
  obtain ⟨st2, hu2, hstlen2, hlen2, hsrc2, hdesc2⟩ :=
    Update_ok_spec st1 tgt src p hwt1 hws1 hnd hdisj hin hfit1 hfit2
  refine ⟨st1, st2, hu1, hu2, ?_⟩
  intro q hq
  have hqe : (⟨q.row, q.column⟩ : Position) = q := rfl
  have h2 := hdesc2 q.row q.column (hqe ▸ hq)
  have h1 := hdesc1 q.row q.column (hqe ▸ hq)
  rw [hqe] at h1 h2
  by_cases hreg : p.row ≤ q.row ∧ q.row < p.row + src.shape.height ∧
      p.column ≤ q.column ∧ q.column < p.column + src.shape.width
  · rw [if_pos hreg] at h1 h2
    have heq : Matrix2D.At st1 src ⟨q.row - p.row, q.column - p.column⟩ =
        Matrix2D.At st src ⟨q.row - p.row, q.column - p.column⟩ :=
      At_congr_rows st1 st src _ (fun r hr => hsrc1 r hr)
    rw [h2, heq]
    exact h1.symm
  · rw [if_neg hreg] at h2
    exact h2

/-- Witness for the amended C8 at the spec's 5×5 paste scenario. -/
theorem claim_C8_amended_witness :
    (WF pasteStore mat55 ∧ WF pasteStore mat32 ∧ DistinctRows mat55 ∧
      (∀ r ∈ mat55.values, ∀ q ∈ mat32.values, r.arr ≠ q.arr) ∧
      InBounds mat55 ⟨2, 1⟩ ∧
      (1 : Int) + mat32.shape.width ≤ mat55.shape.width ∧
      (2 : Int) + mat32.shape.height ≤ mat55.shape.height) ∧
    ∃ st1 st2, Matrix2D.Update pasteStore mat55 ⟨2, 1⟩ mat32 = .ok st1 ∧
      Matrix2D.Update st1 mat55 ⟨2, 1⟩ mat32 = .ok st2 ∧
      ∀ q, InBounds mat55 q →
        Matrix2D.At st2 mat55 q = Matrix2D.At st1 mat55 q :=
  ⟨⟨by decide, by decide, by decide, by decide, by decide, by decide,
    by decide⟩,
    claim_C8_amended pasteStore mat55 mat32 ⟨2, 1⟩
      (by decide) (by decide) (by decide) (by decide) (by decide) (by decide)
      (by decide)⟩

end GoMath
